import Mathlib

/-!
# Excel Helper (`app.js`): comma decimals to dot decimals

A shallow embedding of `src/app.js` and the properties of its cell
classification, scan, count, conversion, export and load paths.

JavaScript strings are modelled as lists of characters.  Every character the
program inspects (`-`, `,`, `.`, `/`, the digits and the white space that
`trim` removes) lies in the Basic Multilingual Plane, where a UTF-16 code unit
and a character coincide.
-/

namespace ExcelHelper

/-! ## JavaScript runtime: strings and regular expressions -/

/-- A JavaScript string. -/
abbrev JSString := List Char

/-- Regular expressions, as far as the two literals of `app.js` need them. -/
inductive Regex where
  | empty : Regex
  | eps : Regex
  | cls (p : Char → Bool) : Regex
  | seq (a b : Regex) : Regex
  | alt (a b : Regex) : Regex
  | star (a : Regex) : Regex

namespace Regex

/-- The pattern of one literal character. -/
def chr (c : Char) : Regex := cls (fun x => x == c)

/-- The pattern `r?`. -/
def opt (r : Regex) : Regex := alt r eps

/-- The pattern `r+`. -/
def plus (r : Regex) : Regex := seq r (star r)

/-- Whether the pattern accepts the empty string. -/
def nullable : Regex → Bool
  | empty => false
  | eps => true
  | cls _ => false
  | seq a b => a.nullable && b.nullable
  | alt a b => a.nullable || b.nullable
  | star _ => true

/-- Brzozowski derivative: what remains to be matched after reading `c`. -/
def deriv : Regex → Char → Regex
  | empty, _ => empty
  | eps, _ => empty
  | cls p, c => if p c then eps else empty
  | seq a b, c =>
      if a.nullable then alt (seq (a.deriv c) b) (b.deriv c) else seq (a.deriv c) b
  | alt a b, c => alt (a.deriv c) (b.deriv c)
  | star a, c => seq (a.deriv c) (star a)

/-- Whether the pattern matches the whole of the input (`^r$`, no `m` flag). -/
def fullMatch (r : Regex) : JSString → Bool
  | [] => r.nullable
  | c :: cs => (r.deriv c).fullMatch cs

/-- The language of a pattern. -/
inductive Matches : Regex → JSString → Prop
  | eps : Matches eps []
  | cls {p : Char → Bool} {c : Char} : p c = true → Matches (cls p) [c]
  | seq {a b : Regex} {s t : JSString} :
      Matches a s → Matches b t → Matches (seq a b) (s ++ t)
  | altL {a b : Regex} {s : JSString} : Matches a s → Matches (alt a b) s
  | altR {a b : Regex} {s : JSString} : Matches b s → Matches (alt a b) s
  | starNil {a : Regex} : Matches (star a) []
  | starCons {a : Regex} {s t : JSString} :
      Matches a s → Matches (star a) t → Matches (star a) (s ++ t)

end Regex

/-- ECMAScript `WhiteSpace` and `LineTerminator` code points, the ones that
`String.prototype.trim` strips. -/
def isWhiteSpace (c : Char) : Bool :=
  let n := c.toNat
  n == 0x09 || n == 0x0A || n == 0x0B || n == 0x0C || n == 0x0D || n == 0x20 ||
  n == 0xA0 || n == 0x1680 || (0x2000 ≤ n && n ≤ 0x200A) || n == 0x2028 ||
  n == 0x2029 || n == 0x202F || n == 0x205F || n == 0x3000 || n == 0xFEFF

/-- The method `String.prototype.trimStart`. -/
def trimStart (s : JSString) : JSString := s.dropWhile isWhiteSpace

/-- The method `String.prototype.trimEnd`. -/
def trimEnd (s : JSString) : JSString := (s.reverse.dropWhile isWhiteSpace).reverse

/-- The method `String.prototype.trim`. -/
def trim (s : JSString) : JSString := trimEnd (trimStart s)

/-- The class `\d`. -/
def digit : Regex := Regex.cls Char.isDigit

/-- The literal `/^-?\d+,\d+$/` of `isCommaDecimal`, anchors apart. -/
def commaDecimalRegex : Regex :=
  Regex.seq (Regex.opt (Regex.chr '-'))
    (Regex.seq (Regex.plus digit) (Regex.seq (Regex.chr ',') (Regex.plus digit)))

/-! ## JavaScript values -/

/-- A JavaScript value as a cell can hold it.  A number is carried by the text
that `String(n)` gives for it; nothing else of a number is ever looked at. -/
inductive JSValue where
  | undefined : JSValue
  | null : JSValue
  | boolean (b : Bool) : JSValue
  | number (text : JSString) : JSValue
  | string (s : JSString) : JSValue

/-- The conversion `String(v)`. -/
def JSValue.toStr : JSValue → JSString
  | .undefined => "undefined".toList
  | .null => "null".toList
  | .boolean true => "true".toList
  | .boolean false => "false".toList
  | .number text => text
  | .string s => s

/-- The test `v !== undefined`. -/
def JSValue.isDefined : JSValue → Bool
  | .undefined => false
  | _ => true

/-- Source function `isCommaDecimal(value)` (lines 105-108). -/
def isCommaDecimal : JSValue → Bool
  | .string s => commaDecimalRegex.fullMatch (trim s)
  | _ => false

/-- The call `s.replace(a, b)` with one-character strings `a` and `b`: only the
first occurrence of `a` is replaced. -/
def replaceFirst (a b : Char) : JSString → JSString
  | [] => []
  | c :: cs => if c = a then b :: cs else c :: replaceFirst a b cs

/-- The call `s.split(sep)` with a one-character separator. -/
def split (sep : Char) : JSString → List JSString
  | [] => [[]]
  | c :: cs =>
      if c = sep then [] :: split sep cs
      else
        match split sep cs with
        | [] => [[c]]
        | seg :: rest => (c :: seg) :: rest

/-- The method `String.prototype.toLowerCase`, on the letters `A`-`Z`; no other
character lower-cases to a letter of `xlsx`, `xls` or `csv`. -/
def toLowerCase (s : JSString) : JSString := s.map Char.toLower

/-- The call `s.replace(/r$/, '')`: the leftmost position from which `r`
matches up to the end of the input is where the string is cut. -/
def replaceToEnd (r : Regex) : JSString → JSString
  | [] => []
  | c :: cs => if r.fullMatch (c :: cs) then [] else c :: replaceToEnd r cs

/-- The literal `/\.[^/.]+$/` of `handleExport`, end anchor apart. -/
def extensionRegex : Regex :=
  Regex.seq (Regex.chr '.') (Regex.plus (Regex.cls (fun c => !(c == '/' || c == '.'))))

/-- The loop `for (let i = lo; ...; i++) body(i)` run for `n` rounds from `i`. -/
def forRounds {σ : Type} (body : Nat → σ → σ) : Nat → Nat → σ → σ
  | 0, _, st => st
  | n + 1, i, st => forRounds body n (i + 1) (body i st)

/-- The loop `for (let i = lo; i <= hi; i++) body(i)`: it runs `hi + 1 - lo`
rounds (none when `hi < lo`). -/
def forLoop {σ : Type} (lo hi : Nat) (body : Nat → σ → σ) (st : σ) : σ :=
  forRounds body (hi + 1 - lo) lo st

/-! ## Workbook data model (SheetJS side) -/

/-- A cell object: value `v`, type tag `t`, formatted text `w`. -/
structure Cell where
  v : JSValue
  t : JSString
  w : Option JSString

/-- A cell address `{ r, c }`, zero-based. -/
structure CellAddress where
  r : Nat
  c : Nat

/-- A range `{ s, e }` as `XLSX.utils.decode_range` returns it. -/
structure Range where
  s : CellAddress
  e : CellAddress

/-- A worksheet: its decoded `!ref` (absent on a sheet that declares none) and
its cells.  `XLSX.utils.encode_cell` names position `(r, c)` one to one, so the
cells are keyed by position. -/
structure Sheet where
  ref : Option Range
  cells : Nat → Nat → Option Cell

/-- The expression `XLSX.utils.decode_range(sheet['!ref'] || 'A1')`. -/
def Sheet.range (sheet : Sheet) : Range :=
  match sheet.ref with
  | some range => range
  | none => ⟨⟨0, 0⟩, ⟨0, 0⟩⟩

/-- The assignment of a cell object at a position of a sheet. -/
def Sheet.setCell (sheet : Sheet) (row col : Nat) (cell : Cell) : Sheet :=
  { sheet with
    cells := fun r c => if r = row ∧ c = col then some cell else sheet.cells r c }

/-- A workbook: `SheetNames` in order and the `Sheets` table. -/
structure Workbook where
  SheetNames : List JSString
  Sheets : JSString → Sheet

/-- The replacement of one entry of the `Sheets` table. -/
def Workbook.setSheet (workbook : Workbook) (sheetName : JSString) (sheet : Sheet) :
    Workbook :=
  { workbook with
    Sheets := fun n => if n = sheetName then sheet else workbook.Sheets n }

/-- The nested scan of lines 118-119, 144-145 and 186-187: rows outside,
columns inside, `visit row col` at each position. -/
def scanRange {σ : Type} (range : Range) (visit : Nat → Nat → σ → σ) (st : σ) : σ :=
  forLoop range.s.r range.e.r
    (fun row => forLoop range.s.c range.e.c (fun col => visit row col)) st

/-- The positions that the nested scan visits, in the order of the visits. -/
def scanTrace (range : Range) : List (Nat × Nat) :=
  scanRange range (fun row col acc => acc ++ [(row, col)]) []

/-! ## Counting and converting -/

/-- Loop body of `countCellsToConvert` (lines 120-128). -/
def countCell (sheet : Sheet) (row col : Nat) (count : Nat) : Nat :=
  match sheet.cells row col with
  | some cell =>
      if cell.v.isDefined then
        let value := cell.v.toStr
        if isCommaDecimal (JSValue.string value) then count + 1 else count
      else count
  | none => count

/-- Source function `countCellsToConvert()` (lines 111-134). -/
def countCellsToConvert (workbook : Workbook) : Nat :=
  workbook.SheetNames.foldl
    (fun count sheetName =>
      let sheet := workbook.Sheets sheetName
      scanRange sheet.range (countCell sheet) count)
    0

/-- Loop body of `convertAllCells` (lines 146-159): the sheet is updated in
place and the running count goes with it. -/
def convertCell (row col : Nat) (st : Sheet × Nat) : Sheet × Nat :=
  match st.1.cells row col with
  | some cell =>
      if cell.v.isDefined then
        let value := cell.v.toStr
        if isCommaDecimal (JSValue.string value) then
          let newValue := replaceFirst ',' '.' value
          (st.1.setCell row col
            { cell with v := JSValue.string newValue, t := ['s'], w := some newValue },
           st.2 + 1)
        else st
      else st
  | none => st

/-- The `forEach` callback of `convertAllCells` (lines 140-162) on one sheet
name: the sheet stored under the name is scanned and updated in place. -/
def convertSheetStep (st : Workbook × Nat) (sheetName : JSString) : Workbook × Nat :=
  let sheet := st.1.Sheets sheetName
  let res := scanRange sheet.range convertCell (sheet, st.2)
  (st.1.setSheet sheetName res.1, res.2)

/-- Source function `convertAllCells()` (lines 137-165): the workbook after the
pass and the count returned. -/
def convertAllCells (workbook : Workbook) : Workbook × Nat :=
  workbook.SheetNames.foldl convertSheetStep (workbook, 0)

/-! ## Export (ExcelJS side) -/

/-- A cell of the output workbook: its `value` and `alignment.horizontal`. -/
structure ExcelCell where
  value : JSString
  horizontal : JSString
  deriving DecidableEq

/-- A worksheet of the output workbook; positions are one-based. -/
structure ExcelSheet where
  name : JSString
  cells : Nat → Nat → Option ExcelCell

/-- The output workbook: its worksheets in the order of `addWorksheet`. -/
abbrev ExcelWorkbook := List ExcelSheet

/-- The statements `getCell(row, col)`, `.value = value` and
`.alignment = { horizontal }` on one cell of an output sheet. -/
def ExcelSheet.writeCell (sheet : ExcelSheet) (row col : Nat) (value horizontal : JSString) :
    ExcelSheet :=
  { sheet with
    cells := fun r c =>
      if r = row ∧ c = col then some ⟨value, horizontal⟩ else sheet.cells r c }

/-- What `handleExport` uses of the ExcelJS library on the way to the output
workbook.  The library is not part of this program, so both calls are taken as
they behave, whatever that is. -/
structure ExcelJS where
  /-- Result of `addWorksheet(name)` on a workbook whose worksheets are stored under
  the names `existing`: the name under which the new worksheet is stored, or the
  message of the error thrown. -/
  worksheetName : (existing : List JSString) → (name : JSString) → Except String JSString
  /-- Message of the error that `getCell(row, col)` throws, when it throws. -/
  cellError : (row col : Nat) → Option String

/-- Loop body of the export loop (lines 188-204): the output sheet and count
after it, or the message of the error thrown by `getCell`. -/
def exportCell (lib : ExcelJS) (sheet : Sheet) (row col : Nat) (st : ExcelSheet × Nat) :
    Except String (ExcelSheet × Nat) :=
  match sheet.cells row col with
  | some cell =>
      if cell.v.isDefined then
        let value := cell.v.toStr
        match lib.cellError (row + 1) (col + 1) with
        | some message => .error message
        | none =>
            if isCommaDecimal (JSValue.string value) then
              .ok (st.1.writeCell (row + 1) (col + 1) (replaceFirst ',' '.' value)
                "right".toList, st.2 + 1)
            else
              .ok (st.1.writeCell (row + 1) (col + 1) value "right".toList, st.2)
      else .ok st
  | none => .ok st

/-- One round of the nested scan of the export loop: nothing more is done once
an error has been thrown. -/
def exportVisit (lib : ExcelJS) (sheet : Sheet) (row col : Nat)
    (acc : Except String (ExcelSheet × Nat)) : Except String (ExcelSheet × Nat) :=
  match acc with
  | .ok st => exportCell lib sheet row col st
  | .error message => .error message

/-- The `forEach` callback of the export loop (lines 180-207) on one sheet name:
`addWorksheet`, then the scan of the sheet.  An error thrown leaves the loop. -/
def exportStep (lib : ExcelJS) (workbook : Workbook)
    (acc : Except String (ExcelWorkbook × Nat)) (sheetName : JSString) :
    Except String (ExcelWorkbook × Nat) :=
  match acc with
  | .error message => .error message
  | .ok st =>
      let sheet := workbook.Sheets sheetName
      match lib.worksheetName (st.1.map (fun ws => ws.name)) sheetName with
      | .error message => .error message
      | .ok name =>
          let excelSheet : ExcelSheet := ⟨name, fun _ _ => none⟩
          match scanRange sheet.range (exportVisit lib sheet) (.ok (excelSheet, st.2)) with
          | .ok res => .ok (st.1 ++ [res.1], res.2)
          | .error message => .error message

/-- The export loop of `handleExport` (lines 176-207): the output workbook and
`convertedCount`, or the message of the error thrown inside the loop. -/
def exportLoop (lib : ExcelJS) (workbook : Workbook) : Except String (ExcelWorkbook × Nat) :=
  workbook.SheetNames.foldl (exportStep lib workbook) (.ok ([], 0))

/-- The name of the download (lines 210-211). -/
def newFileName (fileName : JSString) : JSString :=
  let baseName := replaceToEnd extensionRegex fileName
  baseName ++ "_converted.xlsx".toList

/-! ## Session -/

/-- A byte buffer. -/
abbrev Bytes := List Nat

/-- What `showStatus` last put on the page. -/
structure Status where
  message : String
  isError : Bool
  deriving DecidableEq

/-- The module-level variables of `app.js` and the status line. -/
structure Session where
  workbook : Option Workbook
  fileName : JSString
  cellsToConvert : Nat
  status : Option Status

/-- The state when the script has just been loaded (lines 4-6). -/
def Session.initial : Session := ⟨none, [], 0, none⟩

/-- The file handed to the browser for download. -/
structure Download where
  name : JSString
  data : Bytes
  deriving DecidableEq

/-- Source function `handleExport()` (lines 168-236).  `writeBuffer` stands for
`excelWorkbook.xlsx.writeBuffer()`, which either yields the bytes or throws.
Every error thrown inside the `try` ends in the `catch` of lines 233-235. -/
def handleExport (lib : ExcelJS) (writeBuffer : ExcelWorkbook → Except String Bytes)
    (s : Session) : Session × Option Download :=
  match s.workbook with
  | none => ({ s with status := some ⟨"❌ Please load a file first", true⟩ }, none)
  | some workbook =>
      match exportLoop lib workbook with
      | .error message =>
          ({ s with status := some ⟨"❌ Save error: " ++ message, true⟩ }, none)
      | .ok res =>
          let name := newFileName s.fileName
          match writeBuffer res.1 with
          | .ok buffer =>
              ({ s with
                  status :=
                    some ⟨"✅ " ++ toString res.2 ++ " cells converted and saved!", false⟩,
                  cellsToConvert := 0 },
               some ⟨name, buffer⟩)
          | .error message =>
              ({ s with status := some ⟨"❌ Save error: " ++ message, true⟩ }, none)

/-- The file object given to `loadFile`; only its name is read directly. -/
structure File where
  name : JSString

/-- How `reader.readAsArrayBuffer(file)` ends: `onload` with the bytes, or
`onerror`. -/
inductive ReadEvent where
  | load (result : Bytes) : ReadEvent
  | error : ReadEvent

/-- The array `validExtensions` (line 66). -/
def validExtensions : List JSString := [".xlsx".toList, ".xls".toList, ".csv".toList]

/-- The expression `file.name.split('.').pop()`. -/
def lastSegment (name : JSString) : JSString :=
  match (split '.' name).getLast? with
  | some seg => seg
  | none => []

/-- The extension `ext` computed on line 67. -/
def fileExt (name : JSString) : JSString := '.' :: toLowerCase (lastSegment name)

/-- The synchronous part of `loadFile(file)` (lines 65-76 and 101): the state
it leaves and whether `readAsArrayBuffer` was called. -/
def loadFileStart (file : File) (s : Session) : Session × Bool :=
  if validExtensions.contains (fileExt file.name) then
    ({ s with fileName := file.name }, true)
  else
    ({ s with status := some ⟨"❌ Please select a valid file (.xlsx, .xls or .csv)", true⟩ },
     false)

/-- The callback `reader.onload` (lines 77-95).  `xlsxRead` stands for
`XLSX.read(data, ...)`, which either yields a workbook or throws. -/
def readerOnload (xlsxRead : Bytes → Except String Workbook) (data : Bytes) (s : Session) :
    Session :=
  match xlsxRead data with
  | .ok workbook =>
      { s with
        workbook := some workbook,
        cellsToConvert := countCellsToConvert workbook,
        status := some ⟨"✓ File loaded successfully", false⟩ }
  | .error message =>
      { s with status := some ⟨"❌ Error loading file: " ++ message, true⟩ }

/-- The callback `reader.onerror` (lines 97-99). -/
def readerOnerror (s : Session) : Session :=
  { s with status := some ⟨"❌ Error reading file", true⟩ }

/-- Source function `loadFile(file)` together with the reader callback that
follows it. -/
def loadFile (xlsxRead : Bytes → Except String Workbook) (file : File) (ev : ReadEvent)
    (s : Session) : Session :=
  let started := loadFileStart file s
  if started.2 then
    match ev with
    | .load data => readerOnload xlsxRead data started.1
    | .error => readerOnerror started.1
  else started.1

/-- The last operation that succeeded in a session. -/
inductive Op where
  | loaded : Op
  | exported : Op
  deriving DecidableEq

/-- Session states reachable from the initial one by successful loads and
successful exports, with the last operation performed. -/
inductive Reachable (xlsxRead : Bytes → Except String Workbook) (lib : ExcelJS)
    (writeBuffer : ExcelWorkbook → Except String Bytes) : Option Op → Session → Prop
  | init : Reachable xlsxRead lib writeBuffer none Session.initial
  | loaded {o : Option Op} {s : Session} (file : File) (data : Bytes) (workbook : Workbook) :
      Reachable xlsxRead lib writeBuffer o s →
      validExtensions.contains (fileExt file.name) = true →
      xlsxRead data = .ok workbook →
      Reachable xlsxRead lib writeBuffer (some Op.loaded)
        (loadFile xlsxRead file (ReadEvent.load data) s)
  | exported {o : Option Op} {s : Session} (workbook : Workbook)
      (res : ExcelWorkbook × Nat) (buffer : Bytes) :
      Reachable xlsxRead lib writeBuffer o s →
      s.workbook = some workbook →
      exportLoop lib workbook = .ok res →
      writeBuffer res.1 = .ok buffer →
      Reachable xlsxRead lib writeBuffer (some Op.exported)
        (handleExport lib writeBuffer s).1

/-! ## The specification's wording -/

/-- The shape that the specification words for a comma decimal: an optional
single leading `-`, one or more digits `0`-`9`, exactly one `,`, one or more
digits `0`-`9`, and nothing else. -/
def CommaDecimalText (t : JSString) : Prop :=
  ∃ sign intPart fracPart : JSString,
    t = sign ++ intPart ++ ',' :: fracPart ∧ (sign = [] ∨ sign = ['-']) ∧
    intPart ≠ [] ∧ (∀ c ∈ intPart, c.isDigit = true) ∧
    fracPart ≠ [] ∧ (∀ c ∈ fracPart, c.isDigit = true)

/-- A string that is white space, then `t`, then white space. -/
def Surrounds (s t : JSString) : Prop :=
  ∃ a b : JSString, s = a ++ t ++ b ∧
    (∀ c ∈ a, isWhiteSpace c = true) ∧ (∀ c ∈ b, isWhiteSpace c = true)

/-- The rectangle of a range listed row by row, each row by ascending column. -/
def rowMajor (range : Range) : List (Nat × Nat) :=
  (List.range' range.s.r (range.e.r + 1 - range.s.r)).flatMap
    (fun row => (List.range' range.s.c (range.e.c + 1 - range.s.c)).map (fun col => (row, col)))

/-- The string form of the populated cell (value defined) at a position of a
sheet, when there is one. -/
def Sheet.text (sheet : Sheet) (row col : Nat) : Option JSString :=
  match sheet.cells row col with
  | some cell => if cell.v.isDefined then some cell.v.toStr else none
  | none => none

/-- Whether a position holds a populated cell whose string form is a comma
decimal. -/
def Sheet.convertible (sheet : Sheet) (p : Nat × Nat) : Bool :=
  match sheet.text p.1 p.2 with
  | some value => isCommaDecimal (JSValue.string value)
  | none => false

/-- The positions of the occupied rectangle of a sheet, as a set. -/
def Sheet.rectangle (sheet : Sheet) : Finset (Nat × Nat) :=
  Finset.Icc sheet.range.s.r sheet.range.e.r ×ˢ Finset.Icc sheet.range.s.c sheet.range.e.c

/-- The count in the specification's words: the populated cells inside the
occupied rectangles whose string form is a comma decimal, summed over the
sheets. -/
def convertibleCount (workbook : Workbook) : Nat :=
  (workbook.SheetNames.map
    (fun sheetName =>
      ((workbook.Sheets sheetName).rectangle.filter
        (fun p => (workbook.Sheets sheetName).convertible p = true)).card)).sum

/-- The text that the export loop writes for a string form (lines 196-201). -/
def exportText (value : JSString) : JSString :=
  if isCommaDecimal (JSValue.string value) then replaceFirst ',' '.' value else value

/-- What the loop body of the export loop does to the output sheet and the
count when `getCell` returns. -/
def exportCellOk (sheet : Sheet) (row col : Nat) (st : ExcelSheet × Nat) : ExcelSheet × Nat :=
  match sheet.text row col with
  | some value =>
      (st.1.writeCell (row + 1) (col + 1) (exportText value) "right".toList,
       st.2 + (if isCommaDecimal (JSValue.string value) then 1 else 0))
  | none => st

/-- The output sheet stored under `name` once the scan of `sheet` has run
through. -/
def exportSheet (sheet : Sheet) (name : JSString) : ExcelSheet :=
  (scanRange sheet.range (exportCellOk sheet) (⟨name, fun _ _ => none⟩, 0)).1

/-- Whether the export loop is stopped at a position: a populated cell for
which `getCell` throws. -/
def ExcelJS.blocks (lib : ExcelJS) (sheet : Sheet) (p : Nat × Nat) : Bool :=
  match sheet.text p.1 p.2 with
  | some _ => (lib.cellError (p.1 + 1) (p.2 + 1)).isSome
  | none => false

/-- A sheet on which `getCell` throws for no populated cell of the occupied
rectangle. -/
def ExcelJS.Clear (lib : ExcelJS) (sheet : Sheet) : Prop :=
  ∀ p ∈ rowMajor sheet.range, lib.blocks sheet p = false

/-- The names under which successive `addWorksheet` calls store the worksheets
requested as `names`, in a workbook that already holds `existing`; the message
of the first error otherwise. -/
def assignNames (lib : ExcelJS) : List JSString → List JSString → Except String (List JSString)
  | _, [] => .ok []
  | existing, name :: names =>
      match lib.worksheetName existing name with
      | .error message => .error message
      | .ok stored =>
          match assignNames lib (existing ++ [stored]) names with
          | .error message => .error message
          | .ok rest => .ok (stored :: rest)

/-- The characters that ExcelJS refuses in a worksheet name: `*`, `?`, `:`,
the slash, the backslash, `[` and `]`. -/
def illegalNameChar (c : Char) : Bool :=
  c == '*' || c == '?' || c == ':' || c == '/' || c == Char.ofNat 92 || c == '[' || c == ']'

/-- The length of a JavaScript string: its number of UTF-16 code units, two for
a character beyond the Basic Multilingual Plane. -/
def utf16Length (s : JSString) : Nat :=
  (s.map (fun c => if c.toNat < 65536 then 1 else 2)).sum

/-- The call `s.substring(0, k)`: the first `k` UTF-16 code units.  A character
of two code units that straddles the cut is left out whole, where JavaScript
keeps its first half. -/
def utf16Take : Nat → JSString → JSString
  | _, [] => []
  | k, c :: cs =>
      if (if c.toNat < 65536 then 1 else 2) ≤ k then
        c :: utf16Take (k - (if c.toNat < 65536 then 1 else 2)) cs
      else []

/-- The name setter of an ExcelJS 4 worksheet: the empty name, the name
`History`, a name with an illegal character, a name that starts or ends with a
single quotation mark and a name that another worksheet carries up to letter
case (the letters `A`-`Z` here) are refused, and a name of more than 31 code
units is cut to 31. -/
def excelJSWorksheetName (existing : List JSString) (name : JSString) :
    Except String JSString :=
  if name = [] then .error "The name can't be empty."
  else if name = "History".toList then
    .error "The name \"History\" is protected. Please use a different name."
  else if name.any illegalNameChar then
    .error ("Worksheet name " ++ String.mk name ++
      " cannot include any of the following characters: * ? : \\ / [ ]")
  else if name.head? = some (Char.ofNat 39) ∨ name.getLast? = some (Char.ofNat 39) then
    .error ("The first or last character of worksheet name cannot be a single quotation mark: "
      ++ String.mk name)
  else
    let stored := if utf16Length name > 31 then utf16Take 31 name else name
    if existing.any (fun other => toLowerCase other == toLowerCase stored) then
      .error ("Worksheet name already exists: " ++ String.mk stored)
    else .ok stored

/-- ExcelJS 4 as the scenarios use it: the name setter above, and `getCell`
throwing for a column outside 1 to 16384. -/
def excelJS : ExcelJS :=
  ⟨excelJSWorksheetName,
   fun _ col =>
     if col < 1 ∨ col > 16384 then
       some (toString col ++ " is out of bounds. Excel supports columns from 1 to 16384")
     else none⟩

/-- The cell object that `convertAllCells` leaves where it converts
(lines 153-156). -/
def convertedCell (cell : Cell) : Cell :=
  { cell with
    v := JSValue.string (replaceFirst ',' '.' cell.v.toStr),
    t := ['s'],
    w := some (replaceFirst ',' '.' cell.v.toStr) }

/-- A sheet none of whose cells inside the occupied rectangle would be
converted. -/
def Sheet.Clean (sheet : Sheet) : Prop :=
  ∀ q ∈ rowMajor sheet.range, sheet.convertible q = false

/-! ## The end-to-end scenario of the specification -/

/-- A cell holding a string. -/
def textCell (s : String) : Cell := ⟨JSValue.string s.toList, ['s'], some s.toList⟩

/-- The sheet with A1 = "11,2", A2 = "100", A3 = "-3,5" and range `A1:A3`. -/
def scenarioSheet : Sheet :=
  ⟨some ⟨⟨0, 0⟩, ⟨2, 0⟩⟩,
   fun r c =>
     if c = 0 then
       (if r = 0 then some (textCell "11,2")
        else if r = 1 then some (textCell "100")
        else if r = 2 then some (textCell "-3,5")
        else none)
     else none⟩

/-- The single-sheet workbook of the scenario. -/
def scenarioWorkbook : Workbook := ⟨["Sheet1".toList], fun _ => scenarioSheet⟩

/-- A session in which the scenario workbook was loaded from `a.tar.csv`. -/
def scenarioSession : Session := ⟨some scenarioWorkbook, "a.tar.csv".toList, 2, none⟩

/-- The scenario sheet in a workbook whose only sheet is named `History`. -/
def historyWorkbook : Workbook := ⟨["History".toList], fun _ => scenarioSheet⟩

/-- The scenario sheet in a workbook whose only sheet carries a name of 40
characters. -/
def longNameWorkbook : Workbook :=
  ⟨["Quarterly results by region and category".toList], fun _ => scenarioSheet⟩

/-- The scenario sheet listed twice under one name. -/
def repeatedWorkbook : Workbook :=
  ⟨["Sheet1".toList, "Sheet1".toList], fun _ => scenarioSheet⟩

/-- A `writeBuffer` that succeeds with an empty buffer. -/
def writeEmpty : ExcelWorkbook → Except String Bytes := fun _ => .ok []

/-- An `XLSX.read` that parses every input to the scenario workbook. -/
def readScenario : Bytes → Except String Workbook := fun _ => .ok scenarioWorkbook

/-- An `XLSX.read` that throws on every input. -/
def readFails : Bytes → Except String Workbook := fun _ => .error "Unsupported file"

/-! ## Regular expressions: the matcher decides the language -/

namespace Regex

theorem nullable_iff (r : Regex) : r.nullable = true ↔ Matches r [] := by
  induction r with
  | empty => simp only [nullable]; constructor
             · intro h; cases h
             · intro h; cases h
  | eps => simp only [nullable]; exact ⟨fun _ => Matches.eps, fun _ => trivial⟩
  | cls p => simp only [nullable]; constructor
             · intro h; cases h
             · intro h; cases h
  | seq a b iha ihb =>
      simp only [nullable, Bool.and_eq_true, iha, ihb]
      constructor
      · rintro ⟨ha, hb⟩
        exact Matches.seq ha hb
      · intro h
        generalize hw : ([] : JSString) = w at h
        cases h with
        | seq ha hb =>
            rename_i s t
            have hs : s = [] := by
              cases s with
              | nil => rfl
              | cons x xs => simp at hw
            have ht : t = [] := by
              subst hs; simpa using hw.symm
            subst hs; subst ht
            exact ⟨ha, hb⟩
  | alt a b iha ihb =>
      simp only [nullable, Bool.or_eq_true, iha, ihb]
      constructor
      · rintro (h | h)
        · exact Matches.altL h
        · exact Matches.altR h
      · intro h
        cases h with
        | altL h => exact Or.inl h
        | altR h => exact Or.inr h
  | star a _ => simp only [nullable]; exact ⟨fun _ => Matches.starNil, fun _ => trivial⟩

theorem matches_seq_iff (a b : Regex) (w : JSString) :
    Matches (seq a b) w ↔ ∃ s t, w = s ++ t ∧ Matches a s ∧ Matches b t := by
  constructor
  · intro h
    cases h with
    | seq ha hb => exact ⟨_, _, rfl, ha, hb⟩
  · rintro ⟨s, t, rfl, ha, hb⟩
    exact Matches.seq ha hb

theorem matches_alt_iff (a b : Regex) (w : JSString) :
    Matches (alt a b) w ↔ Matches a w ∨ Matches b w := by
  constructor
  · intro h
    cases h with
    | altL h => exact Or.inl h
    | altR h => exact Or.inr h
  · rintro (h | h)
    · exact Matches.altL h
    · exact Matches.altR h

theorem matches_eps_iff (w : JSString) : Matches eps w ↔ w = [] := by
  constructor
  · intro h; cases h; rfl
  · rintro rfl; exact Matches.eps

theorem matches_cls_iff (p : Char → Bool) (w : JSString) :
    Matches (cls p) w ↔ ∃ c, w = [c] ∧ p c = true := by
  constructor
  · intro h
    cases h with
    | cls hp => exact ⟨_, rfl, hp⟩
  · rintro ⟨c, rfl, hp⟩
    exact Matches.cls hp

theorem not_matches_empty (w : JSString) : ¬ Matches empty w := by
  intro h; cases h

/-- A non-empty word of `a*` starts with a non-empty word of `a`. -/
theorem matches_star_cons {a : Regex} {r : Regex} {w : JSString} (h : Matches r w) :
    ∀ c u, r = star a → w = c :: u →
      ∃ s t, u = s ++ t ∧ Matches a (c :: s) ∧ Matches (star a) t := by
  induction h with
  | eps => intro c u hr; cases hr
  | cls _ => intro c u hr; cases hr
  | seq _ _ _ _ => intro c u hr; cases hr
  | altL _ _ => intro c u hr; cases hr
  | altR _ _ => intro c u hr; cases hr
  | starNil => intro c u _ hw; cases hw
  | @starCons a0 s t h1 h2 _ ih2 =>
      intro c u hr hw
      cases hr
      cases s with
      | nil => exact ih2 c u rfl (by simpa using hw)
      | cons x xs =>
          simp only [List.cons_append, List.cons.injEq] at hw
          obtain ⟨rfl, rfl⟩ := hw
          exact ⟨xs, t, rfl, h1, h2⟩

theorem deriv_iff (r : Regex) : ∀ (c : Char) (w : JSString),
    Matches (r.deriv c) w ↔ Matches r (c :: w) := by
  induction r with
  | empty => intro c w; simp only [deriv]
             exact ⟨fun h => absurd h (not_matches_empty _), fun h => absurd h (not_matches_empty _)⟩
  | eps =>
      intro c w; simp only [deriv, matches_eps_iff]
      constructor
      · intro h; exact absurd h (not_matches_empty _)
      · intro h; cases h
  | cls p =>
      intro c w
      simp only [deriv, matches_cls_iff]
      by_cases hp : p c = true
      · simp only [hp, if_true, matches_eps_iff]
        constructor
        · rintro rfl; exact ⟨c, rfl, hp⟩
        · rintro ⟨d, hd, _⟩
          simp only [List.cons.injEq] at hd
          exact hd.2
      · simp only [hp, if_false]
        constructor
        · intro h; exact absurd h (not_matches_empty _)
        · rintro ⟨d, hd, hpd⟩
          simp only [List.cons.injEq] at hd
          obtain ⟨rfl, _⟩ := hd
          exact absurd hpd hp
  | seq a b iha ihb =>
      intro c w
      have key : Matches (seq (a.deriv c) b) w ↔
          ∃ s t, w = s ++ t ∧ Matches a (c :: s) ∧ Matches b t := by
        rw [matches_seq_iff]
        constructor
        · rintro ⟨s, t, hw, hs, ht⟩
          exact ⟨s, t, hw, (iha c s).mp hs, ht⟩
        · rintro ⟨s, t, hw, hs, ht⟩
          exact ⟨s, t, hw, (iha c s).mpr hs, ht⟩
      have split : Matches (seq a b) (c :: w) ↔
          (∃ s t, w = s ++ t ∧ Matches a (c :: s) ∧ Matches b t) ∨
            (Matches a [] ∧ Matches b (c :: w)) := by
        rw [matches_seq_iff]
        constructor
        · rintro ⟨s, t, hw, hs, ht⟩
          cases s with
          | nil =>
              simp only [List.nil_append] at hw
              subst hw
              exact Or.inr ⟨hs, ht⟩
          | cons x xs =>
              simp only [List.cons_append, List.cons.injEq] at hw
              obtain ⟨rfl, rfl⟩ := hw
              exact Or.inl ⟨xs, t, rfl, hs, ht⟩
        · rintro (⟨s, t, hw, hs, ht⟩ | ⟨hs, ht⟩)
          · exact ⟨c :: s, t, by simp [hw], hs, ht⟩
          · exact ⟨[], c :: w, rfl, hs, ht⟩
      simp only [deriv]
      by_cases hn : a.nullable = true
      · simp only [hn, if_true, matches_alt_iff, key, ihb c w, split]
        constructor
        · rintro (h | h)
          · exact Or.inl h
          · exact Or.inr ⟨(nullable_iff a).mp hn, h⟩
        · rintro (h | ⟨_, h⟩)
          · exact Or.inl h
          · exact Or.inr h
      · have hn2 : a.nullable = false := by simpa using hn
        simp only [hn2, Bool.false_eq_true, if_false, key, split]
        constructor
        · intro h; exact Or.inl h
        · rintro (h | ⟨h, _⟩)
          · exact h
          · exact absurd ((nullable_iff a).mpr h) hn
  | alt a b iha ihb =>
      intro c w
      simp only [deriv, matches_alt_iff, iha c w, ihb c w]
  | star a iha =>
      intro c w
      simp only [deriv, matches_seq_iff]
      constructor
      · rintro ⟨s, t, rfl, hs, ht⟩
        have := Matches.starCons ((iha c s).mp hs) ht
        simpa using this
      · intro h
        obtain ⟨s, t, hw, hs, ht⟩ := matches_star_cons h c w rfl rfl
        exact ⟨s, t, hw, (iha c s).mpr hs, ht⟩

/-- The derivative matcher accepts exactly the words of the language. -/
theorem fullMatch_iff (r : Regex) (w : JSString) : r.fullMatch w = true ↔ Matches r w := by
  induction w generalizing r with
  | nil => simp only [fullMatch]; exact nullable_iff r
  | cons c cs ih => simp only [fullMatch]; rw [ih, deriv_iff]

/-- The words of `(cls p)*` are the words all of whose characters satisfy `p`. -/
theorem matches_star_cls_iff (p : Char → Bool) (w : JSString) :
    Matches (star (cls p)) w ↔ ∀ c ∈ w, p c = true := by
  induction w with
  | nil => simp only [List.not_mem_nil, false_imp_iff, implies_true, iff_true]
           exact Matches.starNil
  | cons x xs ih =>
      rw [← deriv_iff]
      simp only [deriv, matches_seq_iff, List.mem_cons, forall_eq_or_imp]
      by_cases hp : p x = true
      · simp only [hp, if_true, matches_eps_iff, true_and]
        constructor
        · rintro ⟨s, t, rfl, rfl, ht⟩
          exact ih.mp (by simpa using ht)
        · intro h
          exact ⟨[], xs, rfl, rfl, ih.mpr h⟩
      · have hp2 : p x = false := by simpa using hp
        simp only [hp2, Bool.false_eq_true, if_false, false_and, iff_false]
        rintro ⟨s, t, _, hs, _⟩
        exact not_matches_empty _ hs

/-- The words of `(cls p)+` are the non-empty words all of whose characters
satisfy `p`. -/
theorem matches_plus_cls_iff (p : Char → Bool) (w : JSString) :
    Matches (plus (cls p)) w ↔ w ≠ [] ∧ ∀ c ∈ w, p c = true := by
  simp only [plus, matches_seq_iff, matches_cls_iff, matches_star_cls_iff]
  constructor
  · rintro ⟨s, t, rfl, ⟨c, rfl, hc⟩, ht⟩
    refine ⟨by simp, ?_⟩
    intro d hd
    simp only [List.singleton_append, List.mem_cons] at hd
    rcases hd with rfl | hd
    · exact hc
    · exact ht d hd
  · rintro ⟨hne, hall⟩
    cases w with
    | nil => exact absurd rfl hne
    | cons x xs =>
        exact ⟨[x], xs, rfl, ⟨x, rfl, hall x (by simp)⟩, fun d hd => hall d (by simp [hd])⟩

end Regex

/-! ## `trim` -/

theorem dropWhile_append_of_all (p : Char → Bool) (a u : JSString)
    (ha : ∀ c ∈ a, p c = true) : (a ++ u).dropWhile p = u.dropWhile p := by
  induction a with
  | nil => rfl
  | cons x xs ih =>
      have hx : p x = true := ha x (by simp)
      simp only [List.cons_append, List.dropWhile_cons, hx, if_true]
      exact ih (fun c hc => ha c (by simp [hc]))

theorem trimStart_surrounds (s : JSString) :
    ∃ a, s = a ++ trimStart s ∧ ∀ c ∈ a, isWhiteSpace c = true :=
  ⟨s.takeWhile isWhiteSpace, (List.takeWhile_append_dropWhile isWhiteSpace s).symm,
    fun _ hc => List.mem_takeWhile_imp hc⟩

theorem trimEnd_surrounds (s : JSString) :
    ∃ b, s = trimEnd s ++ b ∧ ∀ c ∈ b, isWhiteSpace c = true := by
  refine ⟨(s.reverse.takeWhile isWhiteSpace).reverse, ?_, ?_⟩
  · have h := List.takeWhile_append_dropWhile isWhiteSpace s.reverse
    have h2 := congrArg List.reverse h
    simp only [List.reverse_append, List.reverse_reverse] at h2
    exact h2.symm
  · intro c hc
    exact List.mem_takeWhile_imp (List.mem_reverse.mp hc)

/-- The input of `trim` is its result with white space before and after. -/
theorem trim_surrounds (s : JSString) : Surrounds s (trim s) := by
  obtain ⟨a, ha, hwa⟩ := trimStart_surrounds s
  obtain ⟨b, hb, hwb⟩ := trimEnd_surrounds (trimStart s)
  refine ⟨a, b, ?_, hwa, hwb⟩
  unfold trim
  rw [List.append_assoc, ← hb, ← ha]

/-- A string between white space, itself starting and ending with other
characters, is what `trim` returns. -/
theorem trim_eq_of_surrounds {s t : JSString} (h : Surrounds s t) (x y : Char)
    (u v : JSString) (ht : t = x :: u) (hr : t.reverse = y :: v)
    (hx : isWhiteSpace x = false) (hy : isWhiteSpace y = false) : trim s = t := by
  obtain ⟨a, b, rfl, hwa, hwb⟩ := h
  have h1 : trimStart (a ++ t ++ b) = t ++ b := by
    unfold trimStart
    rw [List.append_assoc, dropWhile_append_of_all _ _ _ hwa, ht]
    simp [List.dropWhile_cons, hx]
  unfold trim
  rw [h1]
  unfold trimEnd
  rw [List.reverse_append,
    dropWhile_append_of_all _ _ _ (fun c hc => hwb c (List.mem_reverse.mp hc)), hr]
  simp only [List.dropWhile_cons, hy, Bool.false_eq_true, if_false]
  rw [← hr, List.reverse_reverse]

theorem isWhiteSpace_of_isDigit {c : Char} (h : c.isDigit = true) : isWhiteSpace c = false := by
  simp only [Char.isDigit, Bool.and_eq_true, decide_eq_true_eq] at h
  have h1 : 48 ≤ c.toNat := by
    have := h.1
    exact UInt32.le_def.mp this
  have h2 : c.toNat ≤ 57 := UInt32.le_def.mp h.2
  simp only [isWhiteSpace]
  simp
  omega

/-! ## `isCommaDecimal` -/

theorem matches_chr_iff (x : Char) (w : JSString) :
    Regex.Matches (Regex.chr x) w ↔ w = [x] := by
  simp only [Regex.chr, Regex.matches_cls_iff, beq_iff_eq]
  constructor
  · rintro ⟨c, rfl, rfl⟩; rfl
  · rintro rfl; exact ⟨x, rfl, rfl⟩

/-- The language of the literal of `isCommaDecimal` is the shape the
specification words. -/
theorem matches_commaDecimalRegex_iff (t : JSString) :
    Regex.Matches commaDecimalRegex t ↔ CommaDecimalText t := by
  simp only [commaDecimalRegex, Regex.opt, digit, Regex.matches_seq_iff, Regex.matches_alt_iff,
    Regex.matches_eps_iff, matches_chr_iff, Regex.matches_plus_cls_iff, CommaDecimalText]
  constructor
  · rintro ⟨sign, r1, rfl, hsign, d1, r2, rfl, ⟨hne1, hd1⟩, cm, d2, rfl, rfl, hne2, hd2⟩
    refine ⟨sign, d1, d2, by simp, hsign.symm, hne1, hd1, hne2, hd2⟩
  · rintro ⟨sign, d1, d2, rfl, hsign, hne1, hd1, hne2, hd2⟩
    exact ⟨sign, d1 ++ ',' :: d2, by simp, hsign.symm, d1, ',' :: d2, rfl, ⟨hne1, hd1⟩,
      [','], d2, rfl, rfl, hne2, hd2⟩

theorem isCommaDecimal_string_iff_trim (s : JSString) :
    isCommaDecimal (JSValue.string s) = true ↔ CommaDecimalText (trim s) := by
  simp only [isCommaDecimal, Regex.fullMatch_iff, matches_commaDecimalRegex_iff]

/-- A comma decimal text starts and ends with a character that `trim` keeps. -/
theorem CommaDecimalText.ends {t : JSString} (h : CommaDecimalText t) :
    ∃ x u y v, t = x :: u ∧ t.reverse = y :: v ∧
      isWhiteSpace x = false ∧ isWhiteSpace y = false := by
  obtain ⟨sign, d1, d2, rfl, hsign, hne1, hd1, hne2, hd2⟩ := h
  have hrev : ∃ y v, d2.reverse = y :: v ∧ y ∈ d2 := by
    cases hd : d2.reverse with
    | nil => exact absurd (List.reverse_eq_nil_iff.mp hd) hne2
    | cons y v =>
        refine ⟨y, v, rfl, ?_⟩
        have : y ∈ d2.reverse := by rw [hd]; simp
        exact List.mem_reverse.mp this
  obtain ⟨y, v, hyv, hy⟩ := hrev
  have hlast : isWhiteSpace y = false := isWhiteSpace_of_isDigit (hd2 y hy)
  cases d1 with
  | nil => exact absurd rfl hne1
  | cons z zs =>
      have hz : isWhiteSpace z = false := isWhiteSpace_of_isDigit (hd1 z (by simp))
      rcases hsign with rfl | rfl
      · exact ⟨z, zs ++ ',' :: d2, y, v ++ ',' :: (zs.reverse ++ [z]), by simp,
          by simp [hyv], hz, hlast⟩
      · exact ⟨'-', z :: zs ++ ',' :: d2, y, v ++ ',' :: (zs.reverse ++ [z, '-']), by simp,
          by simp [hyv], by decide, hlast⟩

/-- The test `isCommaDecimal` on strings, in the words of the specification. -/
theorem isCommaDecimal_string_iff (s : JSString) :
    isCommaDecimal (JSValue.string s) = true ↔ ∃ t, Surrounds s t ∧ CommaDecimalText t := by
  rw [isCommaDecimal_string_iff_trim]
  constructor
  · intro h
    exact ⟨trim s, trim_surrounds s, h⟩
  · rintro ⟨t, hs, ht⟩
    obtain ⟨x, u, y, v, hxu, hyv, hx, hy⟩ := ht.ends
    rw [trim_eq_of_surrounds hs x y u v hxu hyv hx hy]
    exact ht

theorem isDigit_ne_comma {c : Char} (h : c.isDigit = true) : c ≠ ',' := by
  rintro rfl
  exact absurd h (by decide)

theorem isWhiteSpace_ne_comma {c : Char} (h : isWhiteSpace c = true) : c ≠ ',' := by
  rintro rfl
  exact absurd h (by decide)

theorem count_comma_eq_zero {w : JSString} (h : ∀ c ∈ w, c ≠ ',') : w.count ',' = 0 :=
  List.count_eq_zero.mpr (fun hc => h _ hc rfl)

/-- A comma decimal text holds exactly one comma. -/
theorem CommaDecimalText.count_comma {t : JSString} (h : CommaDecimalText t) :
    t.count ',' = 1 := by
  obtain ⟨sign, d1, d2, rfl, hsign, _, hd1, _, hd2⟩ := h
  have h1 : d1.count ',' = 0 := count_comma_eq_zero (fun c hc => isDigit_ne_comma (hd1 c hc))
  have h2 : d2.count ',' = 0 := count_comma_eq_zero (fun c hc => isDigit_ne_comma (hd2 c hc))
  have h0 : sign.count ',' = 0 := by
    rcases hsign with rfl | rfl <;> decide
  simp [List.count_append, List.count_cons, h0, h1, h2]

theorem Surrounds.count_comma_eq {s t : JSString} (h : Surrounds s t) :
    s.count ',' = t.count ',' := by
  obtain ⟨a, b, rfl, ha, hb⟩ := h
  have h1 : a.count ',' = 0 := count_comma_eq_zero (fun c hc => isWhiteSpace_ne_comma (ha c hc))
  have h2 : b.count ',' = 0 := count_comma_eq_zero (fun c hc => isWhiteSpace_ne_comma (hb c hc))
  simp [List.count_append, h1, h2]

/-- A string that `isCommaDecimal` accepts holds exactly one comma. -/
theorem count_comma_of_isCommaDecimal {s : JSString}
    (h : isCommaDecimal (JSValue.string s) = true) : s.count ',' = 1 := by
  obtain ⟨t, hs, ht⟩ := (isCommaDecimal_string_iff s).mp h
  rw [hs.count_comma_eq, ht.count_comma]

theorem isCommaDecimal_false_of_count {s : JSString} (h : s.count ',' ≠ 1) :
    isCommaDecimal (JSValue.string s) = false := by
  cases hv : isCommaDecimal (JSValue.string s) with
  | false => rfl
  | true => exact absurd (count_comma_of_isCommaDecimal hv) h

/-- Every character of an accepted string is white space, `-`, `,` or a digit. -/
theorem chars_of_isCommaDecimal {s : JSString}
    (h : isCommaDecimal (JSValue.string s) = true) :
    ∀ c ∈ s, isWhiteSpace c = true ∨ c = '-' ∨ c = ',' ∨ c.isDigit = true := by
  obtain ⟨t, ⟨a, b, rfl, ha, hb⟩, sign, d1, d2, rfl, hsign, _, hd1, _, hd2⟩ :=
    (isCommaDecimal_string_iff s).mp h
  intro c hc
  simp only [List.mem_append, List.mem_cons] at hc
  rcases hc with ((hc | (hc | hc) | hc | hc) | hc)
  · exact Or.inl (ha c hc)
  · rcases hsign with rfl | rfl
    · simp at hc
    · simp only [List.mem_singleton] at hc
      exact Or.inr (Or.inl hc)
  · exact Or.inr (Or.inr (Or.inr (hd1 c hc)))
  · exact Or.inr (Or.inr (Or.inl hc))
  · exact Or.inr (Or.inr (Or.inr (hd2 c hc)))
  · exact Or.inl (hb c hc)

theorem isAlpha_excluded {c : Char} (h : c.isAlpha = true) :
    ¬ (isWhiteSpace c = true ∨ c = '-' ∨ c = ',' ∨ c.isDigit = true) := by
  simp only [Char.isAlpha, Char.isUpper, Char.isLower, Bool.or_eq_true, Bool.and_eq_true,
    decide_eq_true_eq] at h
  have hr : (65 ≤ c.toNat ∧ c.toNat ≤ 90) ∨ (97 ≤ c.toNat ∧ c.toNat ≤ 122) := by
    rcases h with h | h
    · exact Or.inl ⟨UInt32.le_def.mp h.1, UInt32.le_def.mp h.2⟩
    · exact Or.inr ⟨UInt32.le_def.mp h.1, UInt32.le_def.mp h.2⟩
  rintro (hw | rfl | rfl | hd)
  · simp only [isWhiteSpace] at hw
    simp at hw
    omega
  · revert hr; decide
  · revert hr; decide
  · simp only [Char.isDigit, Bool.and_eq_true, decide_eq_true_eq] at hd
    have h2 : c.toNat ≤ 57 := UInt32.le_def.mp hd.2
    omega

/-- C1: `isCommaDecimal` is true on a string exactly when the string, white
space before and after it removed (that is `trim`), is an optional `-`, one or
more digits, one `,`, one or more digits and nothing else; it is false on the
empty string, on pure integers, on dot decimals, on strings with more than one
comma, on strings with a letter, and on every value that is not a string. -/
theorem isCommaDecimal_spec :
    (∀ s : JSString, isCommaDecimal (JSValue.string s) = true ↔
      ∃ t, Surrounds s t ∧ CommaDecimalText t) ∧
    (∀ s : JSString, isCommaDecimal (JSValue.string s) = true ↔ CommaDecimalText (trim s)) ∧
    isCommaDecimal (JSValue.string []) = false ∧
    (∀ sign digits : JSString, (sign = [] ∨ sign = ['-']) →
      (∀ c ∈ digits, c.isDigit = true) →
      isCommaDecimal (JSValue.string (sign ++ digits)) = false) ∧
    (∀ sign intPart fracPart : JSString, (sign = [] ∨ sign = ['-']) →
      (∀ c ∈ intPart, c.isDigit = true) → (∀ c ∈ fracPart, c.isDigit = true) →
      isCommaDecimal (JSValue.string (sign ++ intPart ++ '.' :: fracPart)) = false) ∧
    (∀ s : JSString, 2 ≤ s.count ',' → isCommaDecimal (JSValue.string s) = false) ∧
    (∀ s : JSString, (∃ c ∈ s, c.isAlpha = true) →
      isCommaDecimal (JSValue.string s) = false) ∧
    (∀ v : JSValue, (∀ s, v ≠ JSValue.string s) → isCommaDecimal v = false) := by
  refine ⟨isCommaDecimal_string_iff, isCommaDecimal_string_iff_trim, by decide, ?_, ?_, ?_, ?_, ?_⟩
  · intro sign digits hsign hd
    apply isCommaDecimal_false_of_count
    have h1 : digits.count ',' = 0 := count_comma_eq_zero (fun c hc => isDigit_ne_comma (hd c hc))
    rcases hsign with rfl | rfl <;> simp [List.count_cons, h1]
  · intro sign d1 d2 hsign hd1 hd2
    apply isCommaDecimal_false_of_count
    have h1 : d1.count ',' = 0 := count_comma_eq_zero (fun c hc => isDigit_ne_comma (hd1 c hc))
    have h2 : d2.count ',' = 0 := count_comma_eq_zero (fun c hc => isDigit_ne_comma (hd2 c hc))
    rcases hsign with rfl | rfl <;> simp [List.count_append, List.count_cons, h1, h2]
  · intro s hs
    exact isCommaDecimal_false_of_count (by omega)
  · rintro s ⟨c, hc, ha⟩
    cases hv : isCommaDecimal (JSValue.string s) with
    | false => rfl
    | true => exact absurd (chars_of_isCommaDecimal hv c hc) (isAlpha_excluded ha)
  · intro v hv
    cases v with
    | string s => exact absurd rfl (hv s)
    | undefined => rfl
    | null => rfl
    | boolean b => rfl
    | number n => rfl

/-- C1 at concrete inputs: accepted and rejected strings and a number. -/
theorem isCommaDecimal_spec_witness :
    isCommaDecimal (JSValue.string " -3,5 ".toList) = true ∧
    isCommaDecimal (JSValue.string "100".toList) = false ∧
    isCommaDecimal (JSValue.string "-11.2".toList) = false ∧
    isCommaDecimal (JSValue.string "1,2,3".toList) = false ∧
    isCommaDecimal (JSValue.string "1,2a".toList) = false ∧
    isCommaDecimal (JSValue.number "11,2".toList) = false :=
  ⟨(isCommaDecimal_spec.1 " -3,5 ".toList).mpr
      ⟨"-3,5".toList, ⟨[' '], [' '], rfl, by decide, by decide⟩,
        ['-'], ['3'], ['5'], rfl, Or.inr rfl, by decide, by decide, by decide, by decide⟩,
    isCommaDecimal_spec.2.2.2.1 [] "100".toList (Or.inl rfl) (by decide),
    isCommaDecimal_spec.2.2.2.2.1 ['-'] "11".toList "2".toList (Or.inr rfl) (by decide)
      (by decide),
    isCommaDecimal_spec.2.2.2.2.2.1 "1,2,3".toList (by decide),
    isCommaDecimal_spec.2.2.2.2.2.2.1 "1,2a".toList ⟨'a', by decide, by decide⟩,
    isCommaDecimal_spec.2.2.2.2.2.2.2 (JSValue.number "11,2".toList) (fun s h => by cases h)⟩

/-! ## The nested scan -/

theorem forRounds_eq_foldl {σ : Type} (body : Nat → σ → σ) (n i : Nat) (st : σ) :
    forRounds body n i st = (List.range' i n).foldl (fun acc j => body j acc) st := by
  induction n generalizing i st with
  | zero => rfl
  | succ n ih => simp only [forRounds, List.range'_succ, List.foldl_cons]; exact ih _ _

theorem foldl_flatMap_eq {α β σ : Type} (f : σ → β → σ) (g : α → List β) (l : List α)
    (st : σ) : (l.flatMap g).foldl f st = l.foldl (fun acc a => (g a).foldl f acc) st := by
  induction l generalizing st with
  | nil => rfl
  | cons a l ih => simp only [List.flatMap_cons, List.foldl_append, List.foldl_cons]; exact ih _

/-- The nested scan is a left-to-right pass over the row-major listing. -/
theorem scanRange_eq_foldl {σ : Type} (range : Range) (visit : Nat → Nat → σ → σ) (st : σ) :
    scanRange range visit st =
      (rowMajor range).foldl (fun acc p => visit p.1 p.2 acc) st := by
  unfold scanRange forLoop rowMajor
  rw [forRounds_eq_foldl, foldl_flatMap_eq]
  congr 1
  funext acc row
  rw [forRounds_eq_foldl, List.foldl_map]

theorem foldl_snoc_eq {α : Type} (l init : List α) :
    l.foldl (fun acc p => acc ++ [p]) init = init ++ l := by
  induction l generalizing init with
  | nil => simp
  | cons a l ih => simp only [List.foldl_cons]; rw [ih]; simp

theorem scanTrace_eq_rowMajor (range : Range) : scanTrace range = rowMajor range := by
  unfold scanTrace
  rw [scanRange_eq_foldl]
  exact foldl_snoc_eq _ _

theorem mem_rowMajor (range : Range) (row col : Nat) :
    (row, col) ∈ rowMajor range ↔
      range.s.r ≤ row ∧ row ≤ range.e.r ∧ range.s.c ≤ col ∧ col ≤ range.e.c := by
  simp only [rowMajor, List.mem_flatMap, List.mem_map, List.mem_range'_1, Prod.mk.injEq]
  constructor
  · rintro ⟨r, ⟨h1, h2⟩, c, ⟨h3, h4⟩, rfl, rfl⟩
    omega
  · rintro ⟨h1, h2, h3, h4⟩
    exact ⟨row, ⟨h1, by omega⟩, col, ⟨h3, by omega⟩, rfl, rfl⟩

theorem pairwise_rowMajor (range : Range) :
    (rowMajor range).Pairwise (fun p q => p.1 < q.1 ∨ (p.1 = q.1 ∧ p.2 < q.2)) := by
  unfold rowMajor
  rw [List.pairwise_flatMap]
  constructor
  · intro row _
    rw [List.pairwise_map]
    exact (List.pairwise_lt_range' range.s.c _).imp (fun h => Or.inr ⟨rfl, h⟩)
  · refine (List.pairwise_lt_range' range.s.r _).imp ?_
    intro r1 r2 hlt p hp q hq
    simp only [List.mem_map] at hp hq
    obtain ⟨_, _, rfl⟩ := hp
    obtain ⟨_, _, rfl⟩ := hq
    exact Or.inl hlt

theorem nodup_rowMajor (range : Range) : (rowMajor range).Nodup := by
  refine (pairwise_rowMajor range).imp ?_
  rintro p q (h | ⟨_, h⟩) rfl <;> omega

theorem length_flatMap_map {α β γ : Type} (l : List α) (m : List β) (f : α → β → γ) :
    (l.flatMap (fun a => m.map (f a))).length = l.length * m.length := by
  induction l with
  | nil => simp
  | cons a l ih =>
      simp only [List.flatMap_cons, List.length_append, List.length_map, List.length_cons, ih]
      rw [Nat.add_mul, Nat.one_mul, Nat.add_comm]

theorem length_rowMajor (range : Range) :
    (rowMajor range).length =
      (range.e.r + 1 - range.s.r) * (range.e.c + 1 - range.s.c) := by
  unfold rowMajor
  rw [length_flatMap_map, List.length_range', List.length_range']

/-- C5: on a rectangle with `minRow <= maxRow` and `minCol <= maxCol` the nested
scan loop visits the positions of the rectangle and no other, each exactly
once, in row-major order, `(maxRow-minRow+1) * (maxCol-minCol+1)` visits in
all; whatever the loop body, the scan is the pass over these visits in order. -/
theorem scan_grid_coverage (range : Range) (hr : range.s.r ≤ range.e.r)
    (hc : range.s.c ≤ range.e.c) :
    (∀ row col : Nat, (row, col) ∈ scanTrace range ↔
      range.s.r ≤ row ∧ row ≤ range.e.r ∧ range.s.c ≤ col ∧ col ≤ range.e.c) ∧
    (∀ row col : Nat, range.s.r ≤ row → row ≤ range.e.r → range.s.c ≤ col →
      col ≤ range.e.c →
      (scanTrace range).countP (fun p => decide (p = (row, col))) = 1) ∧
    (scanTrace range).Nodup ∧
    (scanTrace range).Pairwise (fun p q => p.1 < q.1 ∨ (p.1 = q.1 ∧ p.2 < q.2)) ∧
    (scanTrace range).length =
      (range.e.r - range.s.r + 1) * (range.e.c - range.s.c + 1) ∧
    (∀ (σ : Type) (visit : Nat → Nat → σ → σ) (st : σ),
      scanRange range visit st =
        (scanTrace range).foldl (fun acc p => visit p.1 p.2 acc) st) := by
  rw [scanTrace_eq_rowMajor]
  refine ⟨mem_rowMajor range, ?_, nodup_rowMajor range, pairwise_rowMajor range, ?_, ?_⟩
  · intro row col h1 h2 h3 h4
    have h := List.count_eq_one_of_mem (nodup_rowMajor range)
      ((mem_rowMajor range row col).mpr ⟨h1, h2, h3, h4⟩)
    exact h
  · rw [length_rowMajor]
    have e1 : range.e.r + 1 - range.s.r = range.e.r - range.s.r + 1 := by omega
    have e2 : range.e.c + 1 - range.s.c = range.e.c - range.s.c + 1 := by omega
    rw [e1, e2]
  · intro σ visit st
    exact scanRange_eq_foldl range visit st

/-- C5 on rows 0-2 and columns 0-1: six visits, in row-major order. -/
theorem scan_grid_coverage_witness :
    ((0 : Nat) ≤ 2 ∧ (0 : Nat) ≤ 1) ∧
    scanTrace ⟨⟨0, 0⟩, ⟨2, 1⟩⟩ = [(0, 0), (0, 1), (1, 0), (1, 1), (2, 0), (2, 1)] ∧
    (scanTrace ⟨⟨0, 0⟩, ⟨2, 1⟩⟩).length = (2 - 0 + 1) * (1 - 0 + 1) ∧
    (scanTrace ⟨⟨0, 0⟩, ⟨2, 1⟩⟩).Nodup :=
  ⟨⟨by decide, by decide⟩, by decide,
    (scan_grid_coverage ⟨⟨0, 0⟩, ⟨2, 1⟩⟩ (by decide) (by decide)).2.2.2.2.1,
    (scan_grid_coverage ⟨⟨0, 0⟩, ⟨2, 1⟩⟩ (by decide) (by decide)).2.2.1⟩

/-! ## Counting -/

theorem toFinset_rowMajor (sheet : Sheet) : (rowMajor sheet.range).toFinset = sheet.rectangle := by
  ext ⟨row, col⟩
  simp only [List.mem_toFinset, mem_rowMajor, Sheet.rectangle, Finset.mem_product,
    Finset.mem_Icc]
  constructor
  · rintro ⟨h1, h2, h3, h4⟩; exact ⟨⟨h1, h2⟩, h3, h4⟩
  · rintro ⟨⟨h1, h2⟩, h3, h4⟩; exact ⟨h1, h2, h3, h4⟩

/-- Filtering the row-major listing counts the cells of the rectangle. -/
theorem length_filter_rowMajor (sheet : Sheet) (q : Nat × Nat → Bool) :
    ((rowMajor sheet.range).filter q).length =
      (sheet.rectangle.filter (fun p => q p = true)).card := by
  rw [← toFinset_rowMajor, ← List.toFinset_filter,
    List.toFinset_card_of_nodup ((nodup_rowMajor sheet.range).filter _)]

theorem countCell_eq (sheet : Sheet) (row col count : Nat) :
    countCell sheet row col count =
      count + (if sheet.convertible (row, col) = true then 1 else 0) := by
  unfold countCell Sheet.convertible Sheet.text
  cases sheet.cells row col with
  | none => simp
  | some cell =>
      cases hd : cell.v.isDefined with
      | false => simp [hd]
      | true =>
          cases hm : isCommaDecimal (JSValue.string cell.v.toStr) <;> simp [hd, hm]

theorem foldl_countCell (sheet : Sheet) (l : List (Nat × Nat)) (count : Nat) :
    l.foldl (fun acc p => countCell sheet p.1 p.2 acc) count =
      count + (l.filter sheet.convertible).length := by
  induction l generalizing count with
  | nil => simp
  | cons p l ih =>
      simp only [List.foldl_cons]
      rw [ih, countCell_eq]
      simp only [List.filter_cons]
      cases h : sheet.convertible p with
      | false => simp
      | true => simp; omega

theorem scan_countCell (sheet : Sheet) (count : Nat) :
    scanRange sheet.range (countCell sheet) count =
      count + (sheet.rectangle.filter (fun p => sheet.convertible p = true)).card := by
  rw [scanRange_eq_foldl, foldl_countCell, length_filter_rowMajor]

theorem foldl_add_sum {α : Type} (f : α → Nat) (l : List α) (init : Nat) :
    l.foldl (fun acc a => acc + f a) init = init + (l.map f).sum := by
  induction l generalizing init with
  | nil => simp
  | cons a l ih => simp only [List.foldl_cons, ih, List.map_cons, List.sum_cons]; omega

theorem countCellsToConvert_eq (workbook : Workbook) :
    countCellsToConvert workbook = convertibleCount workbook := by
  unfold countCellsToConvert convertibleCount
  simp only [scan_countCell]
  rw [foldl_add_sum]
  simp

/-! ## The export loop -/

theorem convertible_of_text_none {sheet : Sheet} {p : Nat × Nat}
    (h : sheet.text p.1 p.2 = none) : sheet.convertible p = false := by
  simp [Sheet.convertible, h]

theorem foldl_exportCellOk_count (sheet : Sheet) (l : List (Nat × Nat))
    (st : ExcelSheet × Nat) :
    (l.foldl (fun acc p => exportCellOk sheet p.1 p.2 acc) st).2 =
      st.2 + (l.filter sheet.convertible).length := by
  induction l generalizing st with
  | nil => simp
  | cons p l ih =>
      simp only [List.foldl_cons]
      rw [ih, List.filter_cons]
      unfold exportCellOk
      cases ht : sheet.text p.1 p.2 with
      | none => simp [convertible_of_text_none ht]
      | some value =>
          have hc : sheet.convertible p = isCommaDecimal (JSValue.string value) := by
            simp [Sheet.convertible, ht]
          rw [hc]
          cases hv : isCommaDecimal (JSValue.string value) with
          | false => simp [hv]
          | true => simp [hv]; omega

theorem foldl_exportCellOk_fst (sheet : Sheet) (l : List (Nat × Nat)) (out : ExcelSheet)
    (k k2 : Nat) :
    (l.foldl (fun acc p => exportCellOk sheet p.1 p.2 acc) (out, k)).1 =
      (l.foldl (fun acc p => exportCellOk sheet p.1 p.2 acc) (out, k2)).1 := by
  induction l generalizing out k k2 with
  | nil => rfl
  | cons p l ih =>
      simp only [List.foldl_cons]
      unfold exportCellOk
      cases ht : sheet.text p.1 p.2 with
      | none => exact ih _ _ _
      | some value => exact ih _ _ _

theorem foldl_exportCellOk_name (sheet : Sheet) (l : List (Nat × Nat))
    (st : ExcelSheet × Nat) :
    (l.foldl (fun acc p => exportCellOk sheet p.1 p.2 acc) st).1.name = st.1.name := by
  induction l generalizing st with
  | nil => rfl
  | cons p l ih =>
      simp only [List.foldl_cons]
      rw [ih]
      unfold exportCellOk
      cases ht : sheet.text p.1 p.2 with
      | none => rfl
      | some value => rfl

/-- What the scan of a sheet leaves at a position of the output sheet. -/
theorem foldl_exportCellOk_cells (sheet : Sheet) (l : List (Nat × Nat))
    (st : ExcelSheet × Nat) (R C : Nat) :
    (l.foldl (fun acc p => exportCellOk sheet p.1 p.2 acc) st).1.cells R C =
      if 1 ≤ R ∧ 1 ≤ C ∧ (R - 1, C - 1) ∈ l ∧ (sheet.text (R - 1) (C - 1)).isSome = true then
        (sheet.text (R - 1) (C - 1)).map (fun value => ⟨exportText value, "right".toList⟩)
      else st.1.cells R C := by
  induction l generalizing st with
  | nil => simp
  | cons p l ih =>
      simp only [List.foldl_cons]
      rw [ih]
      by_cases hl : 1 ≤ R ∧ 1 ≤ C ∧ (R - 1, C - 1) ∈ l ∧
          (sheet.text (R - 1) (C - 1)).isSome = true
      · have hl2 : 1 ≤ R ∧ 1 ≤ C ∧ (R - 1, C - 1) ∈ p :: l ∧
            (sheet.text (R - 1) (C - 1)).isSome = true :=
          ⟨hl.1, hl.2.1, List.mem_cons_of_mem _ hl.2.2.1, hl.2.2.2⟩
        rw [if_pos hl, if_pos hl2]
      · rw [if_neg hl]
        unfold exportCellOk
        cases ht : sheet.text p.1 p.2 with
        | none =>
            have hne : ¬ (1 ≤ R ∧ 1 ≤ C ∧ (R - 1, C - 1) ∈ p :: l ∧
                (sheet.text (R - 1) (C - 1)).isSome = true) := by
              rintro ⟨h1, h2, h3, h4⟩
              rcases List.mem_cons.mp h3 with h3 | h3
              · subst h3
                simp [ht] at h4
              · exact hl ⟨h1, h2, h3, h4⟩
            rw [if_neg hne]
        | some value =>
            by_cases hp : R = p.1 + 1 ∧ C = p.2 + 1
            · obtain ⟨rfl, rfl⟩ := hp
              have hpos : 1 ≤ p.1 + 1 ∧ 1 ≤ p.2 + 1 ∧ (p.1 + 1 - 1, p.2 + 1 - 1) ∈ p :: l ∧
                  (sheet.text (p.1 + 1 - 1) (p.2 + 1 - 1)).isSome = true := by
                refine ⟨by omega, by omega, ?_, ?_⟩
                · simp
                · simp [ht]
              rw [if_pos hpos]
              simp [ExcelSheet.writeCell, ht]
            · have hne : ¬ (1 ≤ R ∧ 1 ≤ C ∧ (R - 1, C - 1) ∈ p :: l ∧
                  (sheet.text (R - 1) (C - 1)).isSome = true) := by
                rintro ⟨h1, h2, h3, h4⟩
                rcases List.mem_cons.mp h3 with h3 | h3
                · apply hp
                  have e1 : p.1 = R - 1 := by rw [← h3]
                  have e2 : p.2 = C - 1 := by rw [← h3]
                  omega
                · exact hl ⟨h1, h2, h3, h4⟩
              rw [if_neg hne]
              simp [ExcelSheet.writeCell, hp]

theorem replaceFirst_of_mem {a b : Char} {w : JSString} (h : a ∈ w) :
    ∃ pre post, w = pre ++ a :: post ∧ a ∉ pre ∧ replaceFirst a b w = pre ++ b :: post := by
  induction w with
  | nil => simp at h
  | cons c cs ih =>
      by_cases hc : c = a
      · subst hc
        exact ⟨[], cs, rfl, by simp, by simp [replaceFirst]⟩
      · have hmem : a ∈ cs := by
          rcases List.mem_cons.mp h with h | h
          · exact absurd h.symm hc
          · exact h
        obtain ⟨pre, post, hw, hpre, hrep⟩ := ih hmem
        refine ⟨c :: pre, post, by simp [hw], ?_, ?_⟩
        · intro hm
          rcases List.mem_cons.mp hm with hm | hm
          · exact hc hm.symm
          · exact hpre hm
        · simp [replaceFirst, hc, hrep]

theorem comma_mem_of_isCommaDecimal {w : JSString}
    (h : isCommaDecimal (JSValue.string w) = true) : ',' ∈ w := by
  have hc := count_comma_of_isCommaDecimal h
  exact List.count_pos_iff.mp (by omega)

theorem text_of_cell {sheet : Sheet} {row col : Nat} {cell : Cell}
    (hcell : sheet.cells row col = some cell) (hd : cell.v.isDefined = true) :
    sheet.text row col = some cell.v.toStr := by
  simp [Sheet.text, hcell, hd]

theorem exportSheet_cells (sheet : Sheet) (name : JSString) (R C : Nat) :
    (exportSheet sheet name).cells R C =
      if 1 ≤ R ∧ 1 ≤ C ∧ (R - 1, C - 1) ∈ rowMajor sheet.range ∧
          (sheet.text (R - 1) (C - 1)).isSome = true then
        (sheet.text (R - 1) (C - 1)).map (fun value => ⟨exportText value, "right".toList⟩)
      else none := by
  unfold exportSheet
  rw [scanRange_eq_foldl, foldl_exportCellOk_cells]

theorem exportSheet_name (sheet : Sheet) (name : JSString) :
    (exportSheet sheet name).name = name := by
  unfold exportSheet
  rw [scanRange_eq_foldl, foldl_exportCellOk_name]

/-! ### Errors thrown inside the loop -/

theorem exportCell_of_clear {lib : ExcelJS} {sheet : Sheet} {row col : Nat}
    (st : ExcelSheet × Nat) (h : lib.blocks sheet (row, col) = false) :
    exportCell lib sheet row col st = .ok (exportCellOk sheet row col st) := by
  unfold exportCell exportCellOk exportText
  unfold ExcelJS.blocks at h
  unfold Sheet.text at h ⊢
  cases hc : sheet.cells row col with
  | none => rfl
  | some cell =>
      cases hd : cell.v.isDefined with
      | false => simp [hd]
      | true =>
          simp only [hc, hd, if_true] at h
          cases he : lib.cellError (row + 1) (col + 1) with
          | some message => rw [he] at h; simp at h
          | none =>
              cases hm : isCommaDecimal (JSValue.string cell.v.toStr) <;> simp [hd, hm]

theorem exportCell_of_blocked {lib : ExcelJS} {sheet : Sheet} {row col : Nat}
    (st : ExcelSheet × Nat) (h : lib.blocks sheet (row, col) = true) :
    ∃ message, exportCell lib sheet row col st = .error message := by
  unfold exportCell
  unfold ExcelJS.blocks Sheet.text at h
  cases hc : sheet.cells row col with
  | none => simp [hc] at h
  | some cell =>
      cases hd : cell.v.isDefined with
      | false => simp [hc, hd] at h
      | true =>
          simp only [hc, hd, if_true] at h
          cases he : lib.cellError (row + 1) (col + 1) with
          | some message => exact ⟨message, by simp [hd]⟩
          | none => rw [he] at h; simp at h

theorem foldl_exportVisit_error (lib : ExcelJS) (sheet : Sheet) (l : List (Nat × Nat))
    (message : String) :
    l.foldl (fun acc p => exportVisit lib sheet p.1 p.2 acc) (.error message) =
      .error message := by
  induction l with
  | nil => rfl
  | cons p l ih =>
      simp only [List.foldl_cons]
      exact ih

/-- Where `getCell` throws for no populated cell the scan runs through. -/
theorem foldl_exportVisit_clear (lib : ExcelJS) (sheet : Sheet) (l : List (Nat × Nat))
    (st : ExcelSheet × Nat) (h : ∀ p ∈ l, lib.blocks sheet p = false) :
    l.foldl (fun acc p => exportVisit lib sheet p.1 p.2 acc) (.ok st) =
      .ok (l.foldl (fun acc p => exportCellOk sheet p.1 p.2 acc) st) := by
  induction l generalizing st with
  | nil => rfl
  | cons p l ih =>
      simp only [List.foldl_cons]
      have hstep : exportVisit lib sheet p.1 p.2 (.ok st) = exportCell lib sheet p.1 p.2 st := rfl
      rw [hstep, exportCell_of_clear st (h p (by simp))]
      exact ih _ (fun q hq => h q (List.mem_cons_of_mem _ hq))

/-- A scan that runs through met no populated cell for which `getCell` throws. -/
theorem foldl_exportVisit_ok (lib : ExcelJS) (sheet : Sheet) (l : List (Nat × Nat))
    (st res : ExcelSheet × Nat)
    (h : l.foldl (fun acc p => exportVisit lib sheet p.1 p.2 acc) (.ok st) = .ok res) :
    ∀ p ∈ l, lib.blocks sheet p = false := by
  induction l generalizing st with
  | nil => intro p hp; simp at hp
  | cons q l ih =>
      simp only [List.foldl_cons] at h
      have hstep : exportVisit lib sheet q.1 q.2 (.ok st) = exportCell lib sheet q.1 q.2 st := rfl
      rw [hstep] at h
      cases hb : lib.blocks sheet (q.1, q.2) with
      | true =>
          obtain ⟨message, hm⟩ := exportCell_of_blocked st hb
          rw [hm, foldl_exportVisit_error] at h
          cases h
      | false =>
          rw [exportCell_of_clear st hb] at h
          intro p hp
          rcases List.mem_cons.mp hp with rfl | hp
          · exact hb
          · exact ih _ h p hp

theorem scan_exportVisit_clear (lib : ExcelJS) (sheet : Sheet) (name : JSString) (k : Nat)
    (h : lib.Clear sheet) :
    scanRange sheet.range (exportVisit lib sheet) (.ok (⟨name, fun _ _ => none⟩, k)) =
      .ok (exportSheet sheet name,
        k + (sheet.rectangle.filter (fun p => sheet.convertible p = true)).card) := by
  rw [scanRange_eq_foldl, foldl_exportVisit_clear lib sheet _ _ h]
  congr 1
  apply Prod.ext
  · unfold exportSheet
    rw [scanRange_eq_foldl]
    exact foldl_exportCellOk_fst _ _ _ _ _
  · simp only [foldl_exportCellOk_count, length_filter_rowMajor]

theorem scan_exportVisit_ok (lib : ExcelJS) (sheet : Sheet) (st res : ExcelSheet × Nat)
    (h : scanRange sheet.range (exportVisit lib sheet) (.ok st) = .ok res) :
    lib.Clear sheet := by
  rw [scanRange_eq_foldl] at h
  exact foldl_exportVisit_ok lib sheet _ st res h

theorem foldl_exportStep_error (lib : ExcelJS) (workbook : Workbook) (names : List JSString)
    (message : String) :
    names.foldl (exportStep lib workbook) (.error message) = .error message := by
  induction names with
  | nil => rfl
  | cons n names ih =>
      simp only [List.foldl_cons]
      exact ih

/-- One round of the export loop on a sheet where `getCell` does not throw. -/
theorem exportStep_of_clear (lib : ExcelJS) (workbook : Workbook) (st : ExcelWorkbook × Nat)
    (n : JSString) (h : lib.Clear (workbook.Sheets n)) :
    exportStep lib workbook (.ok st) n =
      match lib.worksheetName (st.1.map (fun ws => ws.name)) n with
      | .error message => .error message
      | .ok stored =>
          .ok (st.1 ++ [exportSheet (workbook.Sheets n) stored],
            st.2 + ((workbook.Sheets n).rectangle.filter
              (fun p => (workbook.Sheets n).convertible p = true)).card) := by
  unfold exportStep
  cases hn : lib.worksheetName (st.1.map (fun ws => ws.name)) n with
  | error message => simp only [hn]
  | ok stored => simp only [hn, scan_exportVisit_clear lib _ stored st.2 h]

/-- A round of the export loop that ends without error ran on a sheet where
`getCell` did not throw. -/
theorem exportStep_ok_clear (lib : ExcelJS) (workbook : Workbook) (st res : ExcelWorkbook × Nat)
    (n : JSString) (h : exportStep lib workbook (.ok st) n = .ok res) :
    lib.Clear (workbook.Sheets n) := by
  unfold exportStep at h
  cases hn : lib.worksheetName (st.1.map (fun ws => ws.name)) n with
  | error message => simp [hn] at h
  | ok stored =>
      simp only [hn] at h
      cases hs : scanRange (workbook.Sheets n).range (exportVisit lib (workbook.Sheets n))
          (.ok (⟨stored, fun _ _ => none⟩, st.2)) with
      | error message => simp [hs] at h
      | ok r => exact scan_exportVisit_ok lib _ _ r hs

/-- The export loop, where `getCell` throws for no populated cell: it ends as
the chain of `addWorksheet` calls ends. -/
theorem foldl_exportStep_clear (lib : ExcelJS) (workbook : Workbook) (names : List JSString)
    (st : ExcelWorkbook × Nat) (h : ∀ n ∈ names, lib.Clear (workbook.Sheets n)) :
    names.foldl (exportStep lib workbook) (.ok st) =
      match assignNames lib (st.1.map (fun ws => ws.name)) names with
      | .error message => .error message
      | .ok stored =>
          .ok (st.1 ++ List.zipWith (fun n a => exportSheet (workbook.Sheets n) a) names stored,
            st.2 + (names.map (fun n =>
              ((workbook.Sheets n).rectangle.filter
                (fun p => (workbook.Sheets n).convertible p = true)).card)).sum) := by
  induction names generalizing st with
  | nil => simp [assignNames]
  | cons n names ih =>
      simp only [List.foldl_cons]
      rw [exportStep_of_clear lib workbook st n (h n (by simp))]
      unfold assignNames
      cases hn : lib.worksheetName (st.1.map (fun ws => ws.name)) n with
      | error message => exact foldl_exportStep_error _ _ _ _
      | ok stored =>
          simp only
          rw [ih _ (fun m hm => h m (List.mem_cons_of_mem _ hm))]
          simp only [List.map_append, List.map_cons, List.map_nil, exportSheet_name]
          cases ha : assignNames lib (st.1.map (fun ws => ws.name) ++ [stored]) names with
          | error message => rfl
          | ok rest =>
              simp only [List.zipWith_cons_cons, List.append_assoc, List.singleton_append,
                List.sum_cons, Nat.add_assoc]

/-- An export loop that ends without error met no populated cell for which
`getCell` throws. -/
theorem foldl_exportStep_ok (lib : ExcelJS) (workbook : Workbook) (names : List JSString)
    (st res : ExcelWorkbook × Nat)
    (h : names.foldl (exportStep lib workbook) (.ok st) = .ok res) :
    ∀ n ∈ names, lib.Clear (workbook.Sheets n) := by
  induction names generalizing st with
  | nil => intro n hn; simp at hn
  | cons m names ih =>
      simp only [List.foldl_cons] at h
      cases hs : exportStep lib workbook (.ok st) m with
      | error message =>
          rw [hs, foldl_exportStep_error] at h
          cases h
      | ok r =>
          rw [hs] at h
          intro n hn
          rcases List.mem_cons.mp hn with rfl | hn
          · exact exportStep_ok_clear lib workbook st r n hs
          · exact ih r h n hn

/-- The export loop when every `addWorksheet` call succeeds and `getCell` throws
for no populated cell. -/
theorem exportLoop_of_clear (lib : ExcelJS) (workbook : Workbook) (stored : List JSString)
    (hnames : assignNames lib [] workbook.SheetNames = .ok stored)
    (hclear : ∀ n ∈ workbook.SheetNames, lib.Clear (workbook.Sheets n)) :
    exportLoop lib workbook =
      .ok (List.zipWith (fun n a => exportSheet (workbook.Sheets n) a) workbook.SheetNames stored,
        convertibleCount workbook) := by
  unfold exportLoop
  rw [foldl_exportStep_clear lib workbook _ _ hclear]
  simp [hnames, convertibleCount]

/-- An export loop that ends without error: the chain of `addWorksheet` calls
succeeded, and the result is the sheets scanned under the stored names with
the count of the workbook. -/
theorem exportLoop_ok (lib : ExcelJS) (workbook : Workbook) (res : ExcelWorkbook × Nat)
    (h : exportLoop lib workbook = .ok res) :
    ∃ stored, assignNames lib [] workbook.SheetNames = .ok stored ∧
      res = (List.zipWith (fun n a => exportSheet (workbook.Sheets n) a)
        workbook.SheetNames stored, convertibleCount workbook) := by
  have hclear := foldl_exportStep_ok lib workbook _ _ res h
  unfold exportLoop at h
  rw [foldl_exportStep_clear lib workbook _ _ hclear] at h
  cases ha : assignNames lib [] workbook.SheetNames with
  | error message => simp [ha] at h
  | ok stored =>
      refine ⟨stored, rfl, ?_⟩
      simp only [List.map_nil, ha, List.nil_append, Nat.zero_add, Except.ok.injEq] at h
      rw [← h]
      rfl

theorem assignNames_length (lib : ExcelJS) (names : List JSString) :
    ∀ (existing stored : List JSString), assignNames lib existing names = .ok stored →
      stored.length = names.length := by
  induction names with
  | nil => intro existing stored h; simp [assignNames] at h; simp [← h]
  | cons n names ih =>
      intro existing stored h
      unfold assignNames at h
      cases hn : lib.worksheetName existing n with
      | error message => simp [hn] at h
      | ok a =>
          simp only [hn] at h
          cases ha : assignNames lib (existing ++ [a]) names with
          | error message => simp [ha] at h
          | ok rest =>
              simp only [ha, Except.ok.injEq] at h
              rw [← h, List.length_cons, ih _ _ ha, List.length_cons]

/-- Each stored name is what `addWorksheet` gives for the requested name in the
workbook that holds the names stored before it. -/
theorem assignNames_get (lib : ExcelJS) (names : List JSString) :
    ∀ (existing stored : List JSString), assignNames lib existing names = .ok stored →
      ∀ (i : Nat) (h1 : i < names.length) (h2 : i < stored.length),
        lib.worksheetName (existing ++ stored.take i) names[i] = .ok stored[i] := by
  induction names with
  | nil => intro existing stored _ i h1; simp at h1
  | cons n names ih =>
      intro existing stored h i h1 h2
      unfold assignNames at h
      cases hn : lib.worksheetName existing n with
      | error message => simp [hn] at h
      | ok a =>
          simp only [hn] at h
          cases ha : assignNames lib (existing ++ [a]) names with
          | error message => simp [ha] at h
          | ok rest =>
              simp only [ha, Except.ok.injEq] at h
              subst h
              cases i with
              | zero => simpa using hn
              | succ j =>
                  have := ih _ _ ha j (by simpa using h1) (by simpa using h2)
                  simpa using this

/-- Where `addWorksheet` stores every requested name as it is, the stored names
are the requested names. -/
theorem assignNames_keep (lib : ExcelJS) (names : List JSString)
    (hkeep : ∀ n ∈ names, ∀ existing a, lib.worksheetName existing n = .ok a → a = n) :
    ∀ (existing stored : List JSString), assignNames lib existing names = .ok stored →
      stored = names := by
  induction names with
  | nil => intro existing stored h; simp [assignNames] at h; exact h
  | cons n names ih =>
      intro existing stored h
      unfold assignNames at h
      cases hn : lib.worksheetName existing n with
      | error message => simp [hn] at h
      | ok a =>
          simp only [hn] at h
          cases ha : assignNames lib (existing ++ [a]) names with
          | error message => simp [ha] at h
          | ok rest =>
              simp only [ha, Except.ok.injEq] at h
              rw [← h, hkeep n (by simp) existing a hn,
                ih (fun m hm => hkeep m (List.mem_cons_of_mem _ hm)) _ _ ha]

theorem map_name_zipWith (workbook : Workbook) (names : List JSString) :
    ∀ stored : List JSString, stored.length = names.length →
      (List.zipWith (fun n a => exportSheet (workbook.Sheets n) a) names stored).map
        (fun ws => ws.name) = stored := by
  induction names with
  | nil => intro stored h; simp [List.length_eq_zero.mp h]
  | cons n names ih =>
      intro stored h
      cases stored with
      | nil => simp at h
      | cons a rest =>
          simp only [List.zipWith_cons_cons, List.map_cons, exportSheet_name, List.cons.injEq,
            true_and]
          exact ih rest (by simpa using h)

/-- The export loop ends in an error exactly as `handleExport` ends in its
`catch`: no download, the message on the status line, nothing else changed. -/
theorem handleExport_loop_error (lib : ExcelJS)
    (writeBuffer : ExcelWorkbook → Except String Bytes) (s : Session) (workbook : Workbook)
    (message : String) (hs : s.workbook = some workbook)
    (hloop : exportLoop lib workbook = .error message) :
    (handleExport lib writeBuffer s).2 = none ∧
    (handleExport lib writeBuffer s).1.status = some ⟨"❌ Save error: " ++ message, true⟩ ∧
    (handleExport lib writeBuffer s).1.workbook = s.workbook ∧
    (handleExport lib writeBuffer s).1.fileName = s.fileName ∧
    (handleExport lib writeBuffer s).1.cellsToConvert = s.cellsToConvert := by
  simp [handleExport, hs, hloop]

/-- The name setter of ExcelJS stores a name of at most 31 code units as it
is. -/
theorem excelJS_keeps_short (existing : List JSString) (n a : JSString)
    (hlen : utf16Length n ≤ 31) (h : excelJS.worksheetName existing n = .ok a) : a = n := by
  have h2 : excelJSWorksheetName existing n = .ok a := h
  unfold excelJSWorksheetName at h2
  have hnot : ¬ utf16Length n > 31 := by omega
  simp only [hnot, if_false] at h2
  split at h2
  · cases h2
  · split at h2
    · cases h2
    · split at h2
      · cases h2
      · split at h2
        · cases h2
        · split at h2
          · cases h2
          · simp only [Except.ok.injEq] at h2
            exact h2.symm

theorem scenario_clear :
    ∀ n ∈ scenarioWorkbook.SheetNames, excelJS.Clear (scenarioWorkbook.Sheets n) := by
  intro n _
  show ∀ p ∈ rowMajor scenarioSheet.range, excelJS.blocks scenarioSheet p = false
  decide

/-- The export loop runs through on the scenario workbook. -/
theorem scenario_exportLoop :
    exportLoop excelJS scenarioWorkbook =
      .ok (List.zipWith (fun n a => exportSheet (scenarioWorkbook.Sheets n) a)
        scenarioWorkbook.SheetNames ["Sheet1".toList], convertibleCount scenarioWorkbook) :=
  exportLoop_of_clear excelJS scenarioWorkbook ["Sheet1".toList] rfl scenario_clear

/-- C2 as stated fails: in the workbook whose only sheet is named `History`,
cell A1 = "11,2" is populated inside the rectangle, yet `addWorksheet` throws,
the export loop writes no output sheet and `handleExport` ends with a save
error and no download; and in the workbook whose only sheet carries a name of
40 characters the cells are written to an output sheet of another name, the
first 31 characters. -/
theorem export_cell_values_counterexample :
    (historyWorkbook.Sheets "History".toList).text 0 0 = some "11,2".toList ∧
    (¬ ∃ (res : ExcelWorkbook × Nat) (out : ExcelSheet),
      exportLoop excelJS historyWorkbook = .ok res ∧ res.1[0]? = some out ∧
      out.name = "History".toList ∧
      out.cells 1 1 = some ⟨"11.2".toList, "right".toList⟩) ∧
    (handleExport excelJS writeEmpty ⟨some historyWorkbook, "a.csv".toList, 2, none⟩).2 =
      none ∧
    (exportLoop excelJS longNameWorkbook).toOption.map
      (fun res => res.1.map (fun ws => (ws.name, ws.cells 1 1))) =
      some [("Quarterly results by region and".toList,
        some ⟨"11.2".toList, "right".toList⟩)] := by
  refine ⟨by decide, ?_, by decide, by decide⟩
  rintro ⟨res, out, hloop, _⟩
  have hnone : (exportLoop excelJS historyWorkbook).toOption.isNone = true := by decide
  rw [hloop] at hnone
  simp [Except.toOption] at hnone

/-- C2 as amended: when the export loop runs through (no call of the ExcelJS
library throws), then for every sheet of the workbook (the `i`-th name of
`SheetNames`) the `i`-th output sheet is the one that `addWorksheet` created for
that name, stored under the name that ExcelJS gives it, and for every populated
cell at zero-based `(row, col)` inside the occupied rectangle the output cell at
one-based `(row+1, col+1)` holds a text: the string form with its first `,`
replaced by `.` and all else unchanged when the string form is a comma decimal,
the string form itself otherwise; positions with no populated cell inside the
rectangle receive no value.  The loop does run through when every
`addWorksheet` call succeeds and `getCell` throws for no populated cell; when a
call throws, `handleExport` writes nothing and reports a save error. -/
theorem export_cell_values (lib : ExcelJS) (workbook : Workbook) :
    (∀ res : ExcelWorkbook × Nat, exportLoop lib workbook = .ok res →
      ∀ (i : Nat) (hi : i < workbook.SheetNames.length),
        ∃ out : ExcelSheet, res.1[i]? = some out ∧
          lib.worksheetName ((res.1.take i).map (fun ws => ws.name))
            workbook.SheetNames[i] = .ok out.name ∧
          (∀ (row col : Nat) (cell : Cell),
            (workbook.Sheets workbook.SheetNames[i]).range.s.r ≤ row →
            row ≤ (workbook.Sheets workbook.SheetNames[i]).range.e.r →
            (workbook.Sheets workbook.SheetNames[i]).range.s.c ≤ col →
            col ≤ (workbook.Sheets workbook.SheetNames[i]).range.e.c →
            (workbook.Sheets workbook.SheetNames[i]).cells row col = some cell →
            cell.v.isDefined = true →
            ∃ text : JSString,
              out.cells (row + 1) (col + 1) = some ⟨text, "right".toList⟩ ∧
              (isCommaDecimal (JSValue.string cell.v.toStr) = true →
                ∃ pre post : JSString, cell.v.toStr = pre ++ ',' :: post ∧ ',' ∉ pre ∧
                  text = pre ++ '.' :: post) ∧
              (isCommaDecimal (JSValue.string cell.v.toStr) = false →
                text = cell.v.toStr)) ∧
          (∀ R C : Nat,
            (¬ ∃ (row col : Nat) (cell : Cell), R = row + 1 ∧ C = col + 1 ∧
              (workbook.Sheets workbook.SheetNames[i]).range.s.r ≤ row ∧
              row ≤ (workbook.Sheets workbook.SheetNames[i]).range.e.r ∧
              (workbook.Sheets workbook.SheetNames[i]).range.s.c ≤ col ∧
              col ≤ (workbook.Sheets workbook.SheetNames[i]).range.e.c ∧
              (workbook.Sheets workbook.SheetNames[i]).cells row col = some cell ∧
              cell.v.isDefined = true) →
            out.cells R C = none)) ∧
    (∀ stored : List JSString, assignNames lib [] workbook.SheetNames = .ok stored →
      (∀ n ∈ workbook.SheetNames, lib.Clear (workbook.Sheets n)) →
      ∃ res, exportLoop lib workbook = .ok res) ∧
    (∀ (message : String) (writeBuffer : ExcelWorkbook → Except String Bytes) (s : Session),
      exportLoop lib workbook = .error message → s.workbook = some workbook →
      (handleExport lib writeBuffer s).2 = none ∧
      (handleExport lib writeBuffer s).1.status =
        some ⟨"❌ Save error: " ++ message, true⟩) := by
  refine ⟨?_, ?_, ?_⟩
  · intro res hloop i hi
    obtain ⟨stored, hass, rfl⟩ := exportLoop_ok lib workbook res hloop
    have hlen := assignNames_length lib _ _ _ hass
    have hi2 : i < stored.length := by omega
    refine ⟨exportSheet (workbook.Sheets workbook.SheetNames[i]) stored[i], ?_, ?_, ?_, ?_⟩
    · rw [List.getElem?_zipWith_eq_some]
      exact ⟨workbook.SheetNames[i], stored[i], List.getElem?_eq_getElem hi,
        List.getElem?_eq_getElem hi2, rfl⟩
    · rw [List.map_take, map_name_zipWith workbook _ stored hlen, exportSheet_name]
      have := assignNames_get lib _ _ _ hass i hi hi2
      simpa using this
    · intro row col cell h1 h2 h3 h4 hcell hd
      have ht := text_of_cell hcell hd
      refine ⟨exportText cell.v.toStr, ?_, ?_, ?_⟩
      · rw [exportSheet_cells]
        have hpos : 1 ≤ row + 1 ∧ 1 ≤ col + 1 ∧
            (row + 1 - 1, col + 1 - 1) ∈
              rowMajor (workbook.Sheets workbook.SheetNames[i]).range ∧
            ((workbook.Sheets workbook.SheetNames[i]).text (row + 1 - 1) (col + 1 - 1)).isSome
              = true := by
          refine ⟨by omega, by omega, ?_, ?_⟩
          · simp only [Nat.add_sub_cancel]
            exact (mem_rowMajor _ row col).mpr ⟨h1, h2, h3, h4⟩
          · simp [ht]
        rw [if_pos hpos]
        simp [ht]
      · intro hm
        obtain ⟨pre, post, hw, hpre, hrep⟩ :=
          @replaceFirst_of_mem ',' '.' _ (comma_mem_of_isCommaDecimal hm)
        exact ⟨pre, post, hw, hpre, by simp [exportText, hm, hrep]⟩
      · intro hm
        simp [exportText, hm]
    · intro R C hno
      rw [exportSheet_cells]
      apply if_neg
      rintro ⟨h1, h2, h3, h4⟩
      apply hno
      have hin := (mem_rowMajor _ (R - 1) (C - 1)).mp h3
      cases hc : (workbook.Sheets workbook.SheetNames[i]).cells (R - 1) (C - 1) with
      | none => simp [Sheet.text, hc] at h4
      | some cell =>
          cases hd : cell.v.isDefined with
          | false => simp [Sheet.text, hc, hd] at h4
          | true =>
              exact ⟨R - 1, C - 1, cell, by omega, by omega, hin.1, hin.2.1, hin.2.2.1,
                hin.2.2.2, hc, hd⟩
  · intro stored hass hclear
    exact ⟨_, exportLoop_of_clear lib workbook stored hass hclear⟩
  · intro message writeBuffer s hloop hs
    obtain ⟨h1, h2, _⟩ := handleExport_loop_error lib writeBuffer s workbook message hs hloop
    exact ⟨h1, h2⟩

/-- C2 as amended, on the scenario A1 = "11,2", A2 = "100", A3 = "-3,5": the
export loop runs through and gives A1 = "11.2", A2 = "100", A3 = "-3.5" and
nothing elsewhere on the sheet `Sheet1`. -/
theorem export_cell_values_witness :
    0 < scenarioWorkbook.SheetNames.length ∧
    ∃ (res : ExcelWorkbook × Nat) (out : ExcelSheet),
      exportLoop excelJS scenarioWorkbook = .ok res ∧ res.1[0]? = some out ∧
      excelJS.worksheetName [] "Sheet1".toList = .ok out.name ∧
      out.cells 1 1 = some ⟨"11.2".toList, "right".toList⟩ ∧
      out.cells 2 1 = some ⟨"100".toList, "right".toList⟩ ∧
      out.cells 3 1 = some ⟨"-3.5".toList, "right".toList⟩ ∧
      out.cells 4 1 = none ∧ out.cells 1 2 = none := by
  refine ⟨by decide, ?_⟩
  obtain ⟨out, hget, hname, _, _⟩ :=
    (export_cell_values excelJS scenarioWorkbook).1 _ scenario_exportLoop 0 (by decide)
  have e : ((exportLoop excelJS scenarioWorkbook).toOption.bind (fun r => r.1[0]?)).map
      (fun o => (o.cells 1 1, o.cells 2 1, o.cells 3 1, o.cells 4 1, o.cells 1 2)) =
      some (some ⟨"11.2".toList, "right".toList⟩, some ⟨"100".toList, "right".toList⟩,
        some ⟨"-3.5".toList, "right".toList⟩, none, none) := by decide
  rw [scenario_exportLoop] at e
  simp only [Except.toOption, Option.some_bind] at e
  rw [hget] at e
  simp only [Option.map_some', Option.some.injEq, Prod.mk.injEq] at e
  exact ⟨_, out, scenario_exportLoop, hget, by simpa using hname,
    e.1, e.2.1, e.2.2.1, e.2.2.2.1, e.2.2.2.2⟩

/-- C6 as stated fails: the only sheet name of the workbook has 40 characters
and the worksheet that the export loop adds is stored under its first 31; and
for the workbook whose only sheet is named `History` the loop throws and adds
no worksheet at all. -/
theorem export_sheet_names_counterexample :
    longNameWorkbook.SheetNames = ["Quarterly results by region and category".toList] ∧
    (exportLoop excelJS longNameWorkbook).toOption.map
      (fun res => res.1.map (fun ws => ws.name)) =
      some ["Quarterly results by region and".toList] ∧
    (¬ ∃ res : ExcelWorkbook × Nat, exportLoop excelJS longNameWorkbook = .ok res ∧
      res.1.map (fun ws => ws.name) = longNameWorkbook.SheetNames) ∧
    (exportLoop excelJS historyWorkbook).toOption.isNone = true := by
  have hnames : (exportLoop excelJS longNameWorkbook).toOption.map
      (fun res => res.1.map (fun ws => ws.name)) =
      some ["Quarterly results by region and".toList] := by decide
  refine ⟨rfl, hnames, ?_, by decide⟩
  rintro ⟨res, hloop, hres⟩
  rw [hloop] at hnames
  simp only [Except.toOption, Option.map_some', Option.some.injEq] at hnames
  rw [hres] at hnames
  exact absurd hnames (by decide)

/-- C6 as amended: when the export loop runs through, the output workbook holds
one worksheet per entry of `SheetNames`, in the same order, each stored under
the name that ExcelJS gives to the entry in the workbook built so far; the
sequence of worksheet names equals `SheetNames`, element for element, wherever
ExcelJS stores every name as given, which it does for names of at most 31
UTF-16 code units.  The loop does run through when every `addWorksheet` call
succeeds and `getCell` throws for no populated cell. -/
theorem export_sheet_names (lib : ExcelJS) (workbook : Workbook) :
    (∀ res : ExcelWorkbook × Nat, exportLoop lib workbook = .ok res →
      res.1.length = workbook.SheetNames.length ∧
      assignNames lib [] workbook.SheetNames = .ok (res.1.map (fun ws => ws.name)) ∧
      (∀ (i : Nat) (hi : i < workbook.SheetNames.length) (hi2 : i < res.1.length),
        lib.worksheetName ((res.1.take i).map (fun ws => ws.name))
          workbook.SheetNames[i] = .ok (res.1[i]).name) ∧
      ((∀ n ∈ workbook.SheetNames, ∀ existing a,
          lib.worksheetName existing n = .ok a → a = n) →
        res.1.map (fun ws => ws.name) = workbook.SheetNames)) ∧
    (∀ res : ExcelWorkbook × Nat, exportLoop excelJS workbook = .ok res →
      (∀ n ∈ workbook.SheetNames, utf16Length n ≤ 31) →
      res.1.map (fun ws => ws.name) = workbook.SheetNames) ∧
    (∀ stored : List JSString, assignNames lib [] workbook.SheetNames = .ok stored →
      (∀ n ∈ workbook.SheetNames, lib.Clear (workbook.Sheets n)) →
      ∃ res, exportLoop lib workbook = .ok res) := by
  have hmain : ∀ (lib : ExcelJS) (res : ExcelWorkbook × Nat),
      exportLoop lib workbook = .ok res →
      ∃ stored, assignNames lib [] workbook.SheetNames = .ok stored ∧
        stored.length = workbook.SheetNames.length ∧
        res.1.map (fun ws => ws.name) = stored ∧ res.1.length = stored.length := by
    intro lib res hloop
    obtain ⟨stored, hass, rfl⟩ := exportLoop_ok lib workbook res hloop
    have hlen := assignNames_length lib _ _ _ hass
    refine ⟨stored, hass, hlen, map_name_zipWith workbook _ stored hlen, ?_⟩
    simp [List.length_zipWith, hlen]
  refine ⟨?_, ?_, ?_⟩
  · intro res hloop
    obtain ⟨stored, hass, hlen, hmap, hlen2⟩ := hmain lib res hloop
    refine ⟨by omega, by rw [hmap]; exact hass, ?_, ?_⟩
    · intro i hi hi2
      have hi3 : i < stored.length := by omega
      have hget := assignNames_get lib _ _ _ hass i hi hi3
      have hname : (res.1[i]).name = stored[i] := by
        have := List.getElem_map (fun ws : ExcelSheet => ws.name) (l := res.1) (n := i)
          (h := by simpa using hi2)
        simp only [hmap] at this
        exact this.symm
      rw [List.map_take, hmap, hname]
      simpa using hget
    · intro hkeep
      rw [hmap]
      exact assignNames_keep lib _ hkeep _ _ hass
  · intro res hloop hshort
    obtain ⟨stored, hass, _, hmap, _⟩ := hmain excelJS res hloop
    rw [hmap]
    exact assignNames_keep excelJS _
      (fun n hn existing a h => excelJS_keeps_short existing n a (hshort n hn) h) _ _ hass
  · intro stored hass hclear
    exact ⟨_, exportLoop_of_clear lib workbook stored hass hclear⟩

/-- C6 as amended, on the scenario workbook: the export loop runs through and
the one output worksheet is named `Sheet1`. -/
theorem export_sheet_names_witness :
    (∀ n ∈ scenarioWorkbook.SheetNames, utf16Length n ≤ 31) ∧
    ∃ res : ExcelWorkbook × Nat, exportLoop excelJS scenarioWorkbook = .ok res ∧
      res.1.map (fun ws => ws.name) = ["Sheet1".toList] :=
  ⟨by decide, _, scenario_exportLoop,
    (export_sheet_names excelJS scenarioWorkbook).2.1 _ scenario_exportLoop (by decide)⟩

/-! ## `convertAllCells` -/

/-- Replacing the comma of a comma decimal gives a string that is none. -/
theorem isCommaDecimal_replaceFirst {w : JSString}
    (h : isCommaDecimal (JSValue.string w) = true) :
    isCommaDecimal (JSValue.string (replaceFirst ',' '.' w)) = false := by
  obtain ⟨pre, post, hw, hpre, hrep⟩ :=
    @replaceFirst_of_mem ',' '.' _ (comma_mem_of_isCommaDecimal h)
  have hc := count_comma_of_isCommaDecimal h
  have h0 : pre.count ',' = 0 := List.count_eq_zero.mpr hpre
  rw [hw] at hc
  simp only [List.count_append, List.count_cons, h0, beq_self_eq_true, if_true] at hc
  apply isCommaDecimal_false_of_count
  rw [hrep]
  simp only [List.count_append, List.count_cons, h0]
  have hne : (('.' : Char) == ',') = false := by decide
  simp only [hne]
  simp
  omega

theorem convertible_congr {s1 s2 : Sheet} {q : Nat × Nat}
    (h : s1.cells q.1 q.2 = s2.cells q.1 q.2) : s1.convertible q = s2.convertible q := by
  simp [Sheet.convertible, Sheet.text, h]

theorem convertCell_of_not {row col : Nat} {st : Sheet × Nat}
    (h : st.1.convertible (row, col) = false) : convertCell row col st = st := by
  unfold convertCell
  unfold Sheet.convertible Sheet.text at h
  cases hc : st.1.cells row col with
  | none => rfl
  | some cell =>
      cases hd : cell.v.isDefined with
      | false => simp [hd]
      | true =>
          simp only [hc, hd, if_true] at h
          simp [hd, h]

theorem convertCell_of_conv {row col : Nat} {st : Sheet × Nat}
    (h : st.1.convertible (row, col) = true) :
    ∃ cell, st.1.cells row col = some cell ∧ cell.v.isDefined = true ∧
      isCommaDecimal (JSValue.string cell.v.toStr) = true ∧
      convertCell row col st = (st.1.setCell row col (convertedCell cell), st.2 + 1) := by
  unfold convertCell
  unfold Sheet.convertible Sheet.text at h
  cases hc : st.1.cells row col with
  | none => simp [hc] at h
  | some cell =>
      cases hd : cell.v.isDefined with
      | false => simp [hc, hd] at h
      | true =>
          simp only [hc, hd, if_true] at h
          exact ⟨cell, rfl, hd, h, by simp [hd, h, convertedCell]⟩

theorem convertedCell_not_convertible (sheet : Sheet) (row col : Nat) (cell : Cell)
    (h : isCommaDecimal (JSValue.string cell.v.toStr) = true) :
    (sheet.setCell row col (convertedCell cell)).convertible (row, col) = false := by
  have hr := isCommaDecimal_replaceFirst h
  have ht : (JSValue.string (replaceFirst ',' '.' cell.v.toStr)).toStr =
      replaceFirst ',' '.' cell.v.toStr := rfl
  simp [Sheet.convertible, Sheet.text, Sheet.setCell, convertedCell, JSValue.isDefined, ht, hr]

theorem setCell_cells_of_ne (sheet : Sheet) (row col : Nat) (cell : Cell) (q : Nat × Nat)
    (h : q ≠ (row, col)) : (sheet.setCell row col cell).cells q.1 q.2 = sheet.cells q.1 q.2 := by
  have : ¬ (q.1 = row ∧ q.2 = col) := by
    rintro ⟨h1, h2⟩
    exact h (Prod.ext h1 h2)
  simp [Sheet.setCell, this]

theorem foldl_convertCell_ref (l : List (Nat × Nat)) (st : Sheet × Nat) :
    (l.foldl (fun acc p => convertCell p.1 p.2 acc) st).1.ref = st.1.ref := by
  induction l generalizing st with
  | nil => rfl
  | cons p l ih =>
      simp only [List.foldl_cons]
      rw [ih]
      cases h : st.1.convertible (p.1, p.2) with
      | false => rw [convertCell_of_not h]
      | true =>
          obtain ⟨cell, _, _, _, heq⟩ := convertCell_of_conv h
          rw [heq]
          rfl

/-- The cells of a sheet after the conversion scan over the positions `l`. -/
theorem foldl_convertCell_cells (l : List (Nat × Nat)) (st : Sheet × Nat) (q : Nat × Nat) :
    (l.foldl (fun acc p => convertCell p.1 p.2 acc) st).1.cells q.1 q.2 =
      if q ∈ l ∧ st.1.convertible q = true then (st.1.cells q.1 q.2).map convertedCell
      else st.1.cells q.1 q.2 := by
  induction l generalizing st with
  | nil => simp
  | cons p l ih =>
      simp only [List.foldl_cons]
      rw [ih]
      cases h : st.1.convertible (p.1, p.2) with
      | false =>
          rw [convertCell_of_not h]
          by_cases hq : q ∈ l ∧ st.1.convertible q = true
          · rw [if_pos hq, if_pos ⟨List.mem_cons_of_mem _ hq.1, hq.2⟩]
          · rw [if_neg hq, if_neg]
            rintro ⟨hm, hcv⟩
            rcases List.mem_cons.mp hm with rfl | hm
            · rw [h] at hcv
              exact absurd hcv (by simp)
            · exact hq ⟨hm, hcv⟩
      | true =>
          obtain ⟨cell, hcell, _, hdec, heq⟩ := convertCell_of_conv h
          rw [heq]
          by_cases hqp : q = (p.1, p.2)
          · subst hqp
            have hnc := convertedCell_not_convertible st.1 p.1 p.2 cell hdec
            rw [if_neg (by simp [hnc]), if_pos ⟨by simp, h⟩]
            simp [Sheet.setCell, hcell]
          · have hcells := setCell_cells_of_ne st.1 p.1 p.2 (convertedCell cell) q hqp
            have hconv : (st.1.setCell p.1 p.2 (convertedCell cell)).convertible q =
                st.1.convertible q := convertible_congr hcells
            simp only [hconv, hcells]
            have hmem : q ∈ p :: l ↔ q ∈ l := by
              constructor
              · intro hm
                rcases List.mem_cons.mp hm with hm | hm
                · exact absurd hm hqp
                · exact hm
              · exact List.mem_cons_of_mem _
            simp only [hmem]

/-- The count that the conversion scan adds over distinct positions. -/
theorem foldl_convertCell_count (l : List (Nat × Nat)) (hl : l.Nodup) (st : Sheet × Nat) :
    (l.foldl (fun acc p => convertCell p.1 p.2 acc) st).2 =
      st.2 + (l.filter st.1.convertible).length := by
  induction l generalizing st with
  | nil => simp
  | cons p l ih =>
      obtain ⟨hp, hl2⟩ := List.nodup_cons.mp hl
      simp only [List.foldl_cons]
      rw [ih hl2, List.filter_cons]
      cases h : st.1.convertible (p.1, p.2) with
      | false =>
          rw [convertCell_of_not h]
          have h2 : st.1.convertible p = false := h
          simp [h2]
      | true =>
          obtain ⟨cell, _, _, _, heq⟩ := convertCell_of_conv h
          rw [heq]
          have h2 : st.1.convertible p = true := h
          have hf : l.filter (st.1.setCell p.1 p.2 (convertedCell cell)).convertible =
              l.filter st.1.convertible := by
            apply List.filter_congr
            intro q hq
            apply convertible_congr
            apply setCell_cells_of_ne
            rintro rfl
            exact hp hq
          simp only [hf, h2, if_true, List.length_cons]
          omega

/-- The conversion scan leaves a sheet as it is where nothing is convertible. -/
theorem foldl_convertCell_of_clean (l : List (Nat × Nat)) (st : Sheet × Nat)
    (h : ∀ q ∈ l, st.1.convertible q = false) :
    l.foldl (fun acc p => convertCell p.1 p.2 acc) st = st := by
  induction l generalizing st with
  | nil => rfl
  | cons p l ih =>
      simp only [List.foldl_cons]
      have hp : st.1.convertible (p.1, p.2) = false := h p (by simp)
      rw [convertCell_of_not hp]
      exact ih st (fun q hq => h q (List.mem_cons_of_mem _ hq))

theorem range_eq_of_ref {s1 s2 : Sheet} (h : s1.ref = s2.ref) : s1.range = s2.range := by
  simp [Sheet.range, h]

theorem scan_convert_range (sheet : Sheet) (k : Nat) :
    (scanRange sheet.range convertCell (sheet, k)).1.range = sheet.range := by
  apply range_eq_of_ref
  rw [scanRange_eq_foldl, foldl_convertCell_ref]

theorem scan_convert_cells (sheet : Sheet) (k : Nat) (q : Nat × Nat) :
    (scanRange sheet.range convertCell (sheet, k)).1.cells q.1 q.2 =
      if q ∈ rowMajor sheet.range ∧ sheet.convertible q = true then
        (sheet.cells q.1 q.2).map convertedCell
      else sheet.cells q.1 q.2 := by
  rw [scanRange_eq_foldl, foldl_convertCell_cells]

theorem scan_convert_count (sheet : Sheet) (k : Nat) :
    (scanRange sheet.range convertCell (sheet, k)).2 =
      k + (sheet.rectangle.filter (fun p => sheet.convertible p = true)).card := by
  rw [scanRange_eq_foldl, foldl_convertCell_count _ (nodup_rowMajor _), length_filter_rowMajor]

theorem scan_convert_of_clean (sheet : Sheet) (k : Nat) (h : sheet.Clean) :
    scanRange sheet.range convertCell (sheet, k) = (sheet, k) := by
  rw [scanRange_eq_foldl]
  exact foldl_convertCell_of_clean _ _ h

/-- A cell that the conversion has replaced is not convertible any more. -/
theorem convertible_map_convertedCell {s1 s2 : Sheet} {q : Nat × Nat}
    (h1 : s1.cells q.1 q.2 = (s2.cells q.1 q.2).map convertedCell)
    (h2 : s2.convertible q = true) : s1.convertible q = false := by
  obtain ⟨cell, hcell, _, hdec, _⟩ := @convertCell_of_conv q.1 q.2 (s2, 0) h2
  have hcell2 : s2.cells q.1 q.2 = some cell := hcell
  rw [hcell2] at h1
  have hr := isCommaDecimal_replaceFirst hdec
  have ht : (JSValue.string (replaceFirst ',' '.' cell.v.toStr)).toStr =
      replaceFirst ',' '.' cell.v.toStr := rfl
  simp [Sheet.convertible, Sheet.text, h1, convertedCell, JSValue.isDefined, ht, hr]

/-- The sheet that the conversion scan leaves has nothing left to convert. -/
theorem scan_convert_clean (sheet : Sheet) (k : Nat) :
    (scanRange sheet.range convertCell (sheet, k)).1.Clean := by
  intro q hq
  rw [scan_convert_range] at hq
  have hcells := scan_convert_cells sheet k q
  cases hc : sheet.convertible q with
  | false =>
      rw [if_neg (by simp [hc])] at hcells
      rw [convertible_congr hcells, hc]
  | true =>
      rw [if_pos ⟨hq, hc⟩] at hcells
      exact convertible_map_convertedCell hcells hc

theorem setSheet_self (workbook : Workbook) (n : JSString) (sheet : Sheet) :
    (workbook.setSheet n sheet).Sheets n = sheet := by
  simp [Workbook.setSheet]

theorem setSheet_of_ne (workbook : Workbook) (n m : JSString) (sheet : Sheet) (h : m ≠ n) :
    (workbook.setSheet n sheet).Sheets m = workbook.Sheets m := by
  simp [Workbook.setSheet, h]

theorem foldl_convert_names (names : List JSString) (st : Workbook × Nat) :
    (names.foldl convertSheetStep st).1.SheetNames = st.1.SheetNames := by
  induction names generalizing st with
  | nil => rfl
  | cons m names ih => simp only [List.foldl_cons]; rw [ih]; rfl

/-- Over distinct sheet names the conversion pass returns the sum of the
per-sheet counts. -/
theorem foldl_convert_count (names : List JSString) (hn : names.Nodup) (st : Workbook × Nat) :
    (names.foldl convertSheetStep st).2 =
      st.2 + (names.map (fun n =>
        ((st.1.Sheets n).rectangle.filter
          (fun p => (st.1.Sheets n).convertible p = true)).card)).sum := by
  induction names generalizing st with
  | nil => simp
  | cons m names ih =>
      obtain ⟨hm, hn2⟩ := List.nodup_cons.mp hn
      simp only [List.foldl_cons, List.map_cons, List.sum_cons]
      rw [ih hn2]
      have hsame : ∀ n ∈ names, (convertSheetStep st m).1.Sheets n = st.1.Sheets n := by
        intro n hmem
        apply setSheet_of_ne
        rintro rfl
        exact hm hmem
      have hmap : names.map (fun n =>
          (((convertSheetStep st m).1.Sheets n).rectangle.filter
            (fun p => ((convertSheetStep st m).1.Sheets n).convertible p = true)).card) =
          names.map (fun n =>
            ((st.1.Sheets n).rectangle.filter
              (fun p => (st.1.Sheets n).convertible p = true)).card) := by
        apply List.map_congr_left
        intro n hmem
        rw [hsame n hmem]
      rw [hmap]
      have hcount : (convertSheetStep st m).2 =
          st.2 + ((st.1.Sheets m).rectangle.filter
            (fun p => (st.1.Sheets m).convertible p = true)).card :=
        scan_convert_count _ _
      rw [hcount]
      omega

/-- After the conversion pass every sheet that was visited, and every sheet
that was clean before, is clean. -/
theorem foldl_convert_clean (names : List JSString) (st : Workbook × Nat) (n : JSString)
    (h : n ∈ names ∨ (st.1.Sheets n).Clean) :
    ((names.foldl convertSheetStep st).1.Sheets n).Clean := by
  induction names generalizing st with
  | nil =>
      rcases h with h | h
      · simp at h
      · exact h
  | cons m names ih =>
      simp only [List.foldl_cons]
      apply ih
      by_cases hnm : n = m
      · subst hnm
        right
        show ((st.1.setSheet n _).Sheets n).Clean
        rw [setSheet_self]
        exact scan_convert_clean _ _
      · rcases h with h | h
        · rcases List.mem_cons.mp h with h | h
          · exact absurd h hnm
          · exact Or.inl h
        · right
          show ((st.1.setSheet m _).Sheets n).Clean
          rw [setSheet_of_ne _ _ _ _ hnm]
          exact h

/-- On a workbook whose listed sheets are all clean the conversion pass
converts nothing. -/
theorem foldl_convert_of_clean (names : List JSString) (st : Workbook × Nat)
    (h : ∀ n ∈ names, (st.1.Sheets n).Clean) :
    (names.foldl convertSheetStep st).2 = st.2 := by
  induction names generalizing st with
  | nil => rfl
  | cons m names ih =>
      simp only [List.foldl_cons]
      have hstep : convertSheetStep st m = (st.1.setSheet m (st.1.Sheets m), st.2) := by
        unfold convertSheetStep
        simp only [scan_convert_of_clean _ _ (h m (by simp))]
      rw [hstep, ih]
      intro n hn
      show ((st.1.setSheet m (st.1.Sheets m)).Sheets n).Clean
      by_cases hnm : n = m
      · subst hnm
        rw [setSheet_self]
        exact h n (by simp)
      · rw [setSheet_of_ne _ _ _ _ hnm]
        exact h n (List.mem_cons_of_mem _ hn)

/-- The conversion pass leaves every cell that is not convertible as it was. -/
theorem foldl_convert_unchanged (names : List JSString) (st : Workbook × Nat) (n : JSString)
    (q : Nat × Nat) (h : (st.1.Sheets n).convertible q = false) :
    ((names.foldl convertSheetStep st).1.Sheets n).cells q.1 q.2 =
      (st.1.Sheets n).cells q.1 q.2 := by
  induction names generalizing st with
  | nil => rfl
  | cons m names ih =>
      simp only [List.foldl_cons]
      have hcells : ((convertSheetStep st m).1.Sheets n).cells q.1 q.2 =
          (st.1.Sheets n).cells q.1 q.2 := by
        by_cases hnm : n = m
        · subst hnm
          show ((st.1.setSheet n _).Sheets n).cells q.1 q.2 = _
          rw [setSheet_self, scan_convert_cells, if_neg (by simp [h])]
        · show ((st.1.setSheet m _).Sheets n).cells q.1 q.2 = _
          rw [setSheet_of_ne _ _ _ _ hnm]
      rw [ih _ (by rw [convertible_congr hcells]; exact h), hcells]

/-- C3 as stated fails twice: with the scenario sheet listed twice under one
name `countCellsToConvert()` is 4 and `convertAllCells()` returns 2; and in
the workbook whose only sheet is named `History` `countCellsToConvert()` is 2
while the export loop throws, so that `handleExport` computes no count. -/
theorem count_consistency_counterexample :
    countCellsToConvert repeatedWorkbook = 4 ∧
    (convertAllCells repeatedWorkbook).2 = 2 ∧
    countCellsToConvert repeatedWorkbook ≠ (convertAllCells repeatedWorkbook).2 ∧
    countCellsToConvert historyWorkbook = 2 ∧
    (exportLoop excelJS historyWorkbook).toOption.isNone = true := by
  decide

/-- C3 as amended: on every workbook `countCellsToConvert()` is the number of
populated cells inside the occupied rectangles whose string form is a comma
decimal, summed over the sheets; whenever the export loop of `handleExport`
runs through, its `convertedCount` is that same number, and it is the count a
successful export reports; whenever the sheet names of the workbook are
distinct, `convertAllCells()` returns that same number.  The export loop does
run through when every `addWorksheet` call succeeds and `getCell` throws for
no populated cell. -/
theorem count_consistency (lib : ExcelJS) (workbook : Workbook) :
    countCellsToConvert workbook = convertibleCount workbook ∧
    (∀ res : ExcelWorkbook × Nat, exportLoop lib workbook = .ok res →
      res.2 = convertibleCount workbook ∧ countCellsToConvert workbook = res.2) ∧
    (∀ (res : ExcelWorkbook × Nat) (writeBuffer : ExcelWorkbook → Except String Bytes)
      (s : Session) (buffer : Bytes),
      s.workbook = some workbook → exportLoop lib workbook = .ok res →
      writeBuffer res.1 = .ok buffer →
      (handleExport lib writeBuffer s).1.status =
        some ⟨"✅ " ++ toString (countCellsToConvert workbook) ++
          " cells converted and saved!", false⟩) ∧
    (∀ stored : List JSString, assignNames lib [] workbook.SheetNames = .ok stored →
      (∀ n ∈ workbook.SheetNames, lib.Clear (workbook.Sheets n)) →
      ∃ res, exportLoop lib workbook = .ok res) ∧
    (workbook.SheetNames.Nodup →
      (convertAllCells workbook).2 = convertibleCount workbook ∧
      (convertAllCells workbook).2 = countCellsToConvert workbook) := by
  have h1 := countCellsToConvert_eq workbook
  have h2 : ∀ res : ExcelWorkbook × Nat, exportLoop lib workbook = .ok res →
      res.2 = convertibleCount workbook := by
    intro res hloop
    obtain ⟨stored, _, rfl⟩ := exportLoop_ok lib workbook res hloop
    rfl
  refine ⟨h1, fun res hloop => ⟨h2 res hloop, by rw [h1, h2 res hloop]⟩, ?_, ?_, ?_⟩
  · intro res writeBuffer s buffer hs hloop hw
    simp only [handleExport, hs, hloop, hw, h1, h2 res hloop]
  · intro stored hass hclear
    exact ⟨_, exportLoop_of_clear lib workbook stored hass hclear⟩
  · intro hn
    have h3 : (convertAllCells workbook).2 = convertibleCount workbook := by
      unfold convertAllCells
      rw [foldl_convert_count _ hn]
      simp [convertibleCount]
    exact ⟨h3, by rw [h3, h1]⟩

/-- C3 as amended, on the scenario workbook: the export loop runs through and
the three counts are 2. -/
theorem count_consistency_witness :
    scenarioWorkbook.SheetNames.Nodup ∧
    countCellsToConvert scenarioWorkbook = 2 ∧
    (∃ res : ExcelWorkbook × Nat, exportLoop excelJS scenarioWorkbook = .ok res ∧ res.2 = 2) ∧
    (convertAllCells scenarioWorkbook).2 = 2 := by
  have hc : countCellsToConvert scenarioWorkbook = 2 := by decide
  have h := count_consistency excelJS scenarioWorkbook
  refine ⟨by decide, hc, ⟨_, scenario_exportLoop, ?_⟩, ?_⟩
  · rw [← (h.2.1 _ scenario_exportLoop).2, hc]
  · rw [(h.2.2.2.2 (by decide)).2, hc]

/-- C4: after `convertAllCells()` has run on a workbook, a second
`convertAllCells()` returns 0 and `countCellsToConvert()` returns 0: replacing
the comma of a comma decimal never gives a comma decimal, and a cell that did
not match is left as it was. -/
theorem convert_idempotent (workbook : Workbook) :
    (convertAllCells (convertAllCells workbook).1).2 = 0 ∧
    countCellsToConvert (convertAllCells workbook).1 = 0 ∧
    (∀ w : JSString, isCommaDecimal (JSValue.string w) = true →
      isCommaDecimal (JSValue.string (replaceFirst ',' '.' w)) = false) ∧
    (∀ (sheetName : JSString) (row col : Nat),
      (workbook.Sheets sheetName).convertible (row, col) = false →
      ((convertAllCells workbook).1.Sheets sheetName).cells row col =
        (workbook.Sheets sheetName).cells row col) := by
  have hnames : (convertAllCells workbook).1.SheetNames = workbook.SheetNames :=
    foldl_convert_names _ _
  have hclean : ∀ n ∈ (convertAllCells workbook).1.SheetNames,
      ((convertAllCells workbook).1.Sheets n).Clean := by
    intro n hn
    rw [hnames] at hn
    exact foldl_convert_clean _ _ n (Or.inl hn)
  refine ⟨?_, ?_, fun w h => isCommaDecimal_replaceFirst h, ?_⟩
  · show ((convertAllCells workbook).1.SheetNames.foldl convertSheetStep
      ((convertAllCells workbook).1, 0)).2 = 0
    exact foldl_convert_of_clean _ _ hclean
  · rw [countCellsToConvert_eq]
    unfold convertibleCount
    apply List.sum_eq_zero
    intro x hx
    obtain ⟨n, hn, rfl⟩ := List.mem_map.mp hx
    rw [← length_filter_rowMajor]
    simp only [List.length_eq_zero, List.filter_eq_nil_iff]
    intro q hq
    rw [hclean n hn q hq]
    simp
  · intro n row col h
    exact foldl_convert_unchanged _ _ n (row, col) h

/-- C4 on the scenario workbook: the first pass converts 2 cells, the second
none, A1 holds "11.2" and A2 is as it was. -/
theorem convert_idempotent_witness :
    (convertAllCells scenarioWorkbook).2 = 2 ∧
    (convertAllCells (convertAllCells scenarioWorkbook).1).2 = 0 ∧
    countCellsToConvert (convertAllCells scenarioWorkbook).1 = 0 ∧
    (((convertAllCells scenarioWorkbook).1.Sheets "Sheet1".toList).cells 0 0).map
      (fun cell => cell.v.toStr) = some "11.2".toList ∧
    ((convertAllCells scenarioWorkbook).1.Sheets "Sheet1".toList).cells 1 0 =
      (scenarioWorkbook.Sheets "Sheet1".toList).cells 1 0 :=
  ⟨by decide, (convert_idempotent scenarioWorkbook).1, (convert_idempotent scenarioWorkbook).2.1,
    by decide,
    (convert_idempotent scenarioWorkbook).2.2.2 "Sheet1".toList 1 0 (by decide)⟩

/-! ## The name of the download -/

theorem matches_extensionRegex_iff (w : JSString) :
    Regex.Matches extensionRegex w ↔
      ∃ ext : JSString, w = '.' :: ext ∧ ext ≠ [] ∧ ∀ c ∈ ext, c ≠ '.' ∧ c ≠ '/' := by
  simp only [extensionRegex, Regex.matches_seq_iff, matches_chr_iff, Regex.matches_plus_cls_iff]
  constructor
  · rintro ⟨d, ext, rfl, rfl, hne, hall⟩
    refine ⟨ext, rfl, hne, ?_⟩
    intro c hc
    have := hall c hc
    simp only [Bool.not_eq_true', Bool.or_eq_false_iff, beq_eq_false_iff_ne, ne_eq] at this
    exact ⟨this.2, this.1⟩
  · rintro ⟨ext, rfl, hne, hall⟩
    refine ⟨['.'], ext, rfl, rfl, hne, ?_⟩
    intro c hc
    have := hall c hc
    simp [this.1, this.2]

theorem replaceToEnd_of_ext (r : Regex) (base tail : JSString)
    (hlast : r.fullMatch tail = true)
    (hbase : ∀ pre c suf, base = pre ++ c :: suf → r.fullMatch (c :: suf ++ tail) = false) :
    replaceToEnd r (base ++ tail) = base := by
  induction base with
  | nil =>
      cases tail with
      | nil => rfl
      | cons c cs => simp [replaceToEnd, hlast]
  | cons b bs ih =>
      have h0 := hbase [] b bs rfl
      simp only [List.cons_append] at h0 ⊢
      simp only [replaceToEnd, h0, Bool.false_eq_true, if_false, List.cons.injEq, true_and]
      apply ih
      intro pre c suf hb
      exact hbase (b :: pre) c suf (by simp [hb])

theorem replaceToEnd_of_none (r : Regex) (w : JSString)
    (h : ∀ pre c suf, w = pre ++ c :: suf → r.fullMatch (c :: suf) = false) :
    replaceToEnd r w = w := by
  induction w with
  | nil => rfl
  | cons b bs ih =>
      have h0 := h [] b bs rfl
      simp only [replaceToEnd, h0, Bool.false_eq_true, if_false, List.cons.injEq, true_and]
      apply ih
      intro pre c suf hb
      exact h (b :: pre) c suf (by simp [hb])

theorem fullMatch_eq_false_of_not {r : Regex} {w : JSString} (h : ¬ Regex.Matches r w) :
    r.fullMatch w = false := by
  cases hv : r.fullMatch w with
  | false => rfl
  | true => exact absurd ((Regex.fullMatch_iff r w).mp hv) h

/-- The name of the download when the file name ends in an extension. -/
theorem newFileName_of_ext (base ext : JSString) (hne : ext ≠ [])
    (hall : ∀ c ∈ ext, c ≠ '.' ∧ c ≠ '/') :
    newFileName (base ++ '.' :: ext) = base ++ "_converted.xlsx".toList := by
  unfold newFileName
  simp only
  rw [replaceToEnd_of_ext]
  · exact (Regex.fullMatch_iff _ _).mpr ((matches_extensionRegex_iff _).mpr ⟨ext, rfl, hne, hall⟩)
  · intro pre c suf _
    apply fullMatch_eq_false_of_not
    rw [matches_extensionRegex_iff]
    rintro ⟨ext2, heq, _, hall2⟩
    simp only [List.cons_append, List.cons.injEq] at heq
    have hmem : '.' ∈ ext2 := by
      rw [← heq.2]
      simp
    exact (hall2 '.' hmem).1 rfl

/-- The name of the download when the file name ends in no extension. -/
theorem newFileName_of_none (name : JSString)
    (h : ¬ ∃ base ext : JSString, name = base ++ '.' :: ext ∧ ext ≠ [] ∧
      ∀ c ∈ ext, c ≠ '.' ∧ c ≠ '/') :
    newFileName name = name ++ "_converted.xlsx".toList := by
  unfold newFileName
  simp only
  rw [replaceToEnd_of_none]
  intro pre c suf hw
  apply fullMatch_eq_false_of_not
  rw [matches_extensionRegex_iff]
  rintro ⟨ext, heq, hne, hall⟩
  exact h ⟨pre, ext, by rw [hw, heq], hne, hall⟩

/-- C7: when `handleExport` saves, the download is named after the loaded file
name with its last extension stripped, followed by `_converted.xlsx`: for a
file name `base.ext` with `ext` non-empty and free of `.` and `/` the name is
`base_converted.xlsx`, and for a file name with no such extension it is the
whole name followed by `_converted.xlsx`. -/
theorem export_file_name (lib : ExcelJS) (writeBuffer : ExcelWorkbook → Except String Bytes)
    (s : Session) (workbook : Workbook) (res : ExcelWorkbook × Nat) (buffer : Bytes)
    (hs : s.workbook = some workbook) (hloop : exportLoop lib workbook = .ok res)
    (hw : writeBuffer res.1 = .ok buffer) :
    (∀ base ext : JSString, s.fileName = base ++ '.' :: ext → ext ≠ [] →
      (∀ c ∈ ext, c ≠ '.' ∧ c ≠ '/') →
      (handleExport lib writeBuffer s).2 =
        some ⟨base ++ "_converted.xlsx".toList, buffer⟩) ∧
    ((¬ ∃ base ext : JSString, s.fileName = base ++ '.' :: ext ∧ ext ≠ [] ∧
        ∀ c ∈ ext, c ≠ '.' ∧ c ≠ '/') →
      (handleExport lib writeBuffer s).2 =
        some ⟨s.fileName ++ "_converted.xlsx".toList, buffer⟩) := by
  have hexp : (handleExport lib writeBuffer s).2 = some ⟨newFileName s.fileName, buffer⟩ := by
    simp only [handleExport, hs, hloop, hw]
  constructor
  · intro base ext hname hne hall
    rw [hexp, hname, newFileName_of_ext base ext hne hall]
  · intro hnone
    rw [hexp, newFileName_of_none _ hnone]

/-- C7 on the file name `a.tar.csv`: the download is `a.tar_converted.xlsx`. -/
theorem export_file_name_witness :
    (scenarioSession.workbook = some scenarioWorkbook ∧
      (∃ res, exportLoop excelJS scenarioWorkbook = .ok res ∧ writeEmpty res.1 = .ok [])) ∧
    (handleExport excelJS writeEmpty scenarioSession).2 =
      some ⟨"a.tar_converted.xlsx".toList, []⟩ :=
  ⟨⟨rfl, _, scenario_exportLoop, rfl⟩,
    (export_file_name excelJS writeEmpty scenarioSession scenarioWorkbook _ [] rfl
      scenario_exportLoop rfl).1 "a.tar".toList "csv".toList rfl (by decide) (by decide)⟩

/-! ## Loading -/

/-- The path of `loadFile` that rejects the extension: only the status line
changes and no read is started. -/
theorem loadFileStart_rejected (file : File) (s : Session)
    (h : validExtensions.contains (fileExt file.name) = false) :
    (loadFileStart file s).2 = false ∧
    (loadFileStart file s).1.workbook = s.workbook ∧
    (loadFileStart file s).1.fileName = s.fileName ∧
    (loadFileStart file s).1.cellsToConvert = s.cellsToConvert ∧
    (loadFileStart file s).1.status =
      some ⟨"❌ Please select a valid file (.xlsx, .xls or .csv)", true⟩ := by
  unfold loadFileStart
  rw [h]
  simp

/-- The path of `loadFile` on which `XLSX.read` throws: the workbook and the
count stay, the file name is already the new one. -/
theorem loadFile_parse_failure (xlsxRead : Bytes → Except String Workbook) (file : File)
    (data : Bytes) (message : String) (s : Session)
    (hext : validExtensions.contains (fileExt file.name) = true)
    (hread : xlsxRead data = .error message) :
    (loadFile xlsxRead file (ReadEvent.load data) s).workbook = s.workbook ∧
    (loadFile xlsxRead file (ReadEvent.load data) s).cellsToConvert = s.cellsToConvert ∧
    (loadFile xlsxRead file (ReadEvent.load data) s).fileName = file.name := by
  unfold loadFile loadFileStart
  rw [hext]
  simp [readerOnload, hread]

/-- The path of `loadFile` on which the file is parsed. -/
theorem loadFile_success (xlsxRead : Bytes → Except String Workbook) (file : File)
    (data : Bytes) (workbook : Workbook) (s : Session)
    (hext : validExtensions.contains (fileExt file.name) = true)
    (hread : xlsxRead data = .ok workbook) :
    (loadFile xlsxRead file (ReadEvent.load data) s).workbook = some workbook ∧
    (loadFile xlsxRead file (ReadEvent.load data) s).cellsToConvert =
      countCellsToConvert workbook ∧
    (loadFile xlsxRead file (ReadEvent.load data) s).fileName = file.name := by
  unfold loadFile loadFileStart
  rw [hext]
  simp [readerOnload, hread]

/-- C8, at the failing input: a file named `csv` does not end in `.xlsx`,
`.xls` or `.csv`, yet `loadFile` raises no error, starts the read and stores
the name as `fileName`. -/
theorem loadFile_accepts_bare_csv :
    (validExtensions.all (fun ext => !ext.isSuffixOf (toLowerCase "csv".toList))) = true ∧
    (loadFileStart ⟨"csv".toList⟩ Session.initial).2 = true ∧
    (loadFileStart ⟨"csv".toList⟩ Session.initial).1.fileName = "csv".toList ∧
    (loadFileStart ⟨"csv".toList⟩ Session.initial).1.fileName ≠ Session.initial.fileName ∧
    (loadFileStart ⟨"csv".toList⟩ Session.initial).1.status = none := by
  decide

/-- C9, at the failing input: with `a.tar.csv` loaded, a load of `b.xlsx` whose
bytes fail to parse keeps the workbook and the count but leaves `fileName` at
`b.xlsx`, so that the next export saves the old workbook as
`b_converted.xlsx`. -/
theorem loadFile_failure_changes_fileName :
    (loadFile readFails ⟨"b.xlsx".toList⟩ (ReadEvent.load []) scenarioSession).fileName =
      "b.xlsx".toList ∧
    (loadFile readFails ⟨"b.xlsx".toList⟩ (ReadEvent.load []) scenarioSession).fileName ≠
      scenarioSession.fileName ∧
    (loadFile readFails ⟨"b.xlsx".toList⟩ (ReadEvent.load []) scenarioSession).cellsToConvert =
      scenarioSession.cellsToConvert ∧
    ((loadFile readFails ⟨"b.xlsx".toList⟩ (ReadEvent.load []) scenarioSession).workbook.map
      (fun wb => wb.SheetNames)) = some ["Sheet1".toList] ∧
    ((handleExport excelJS writeEmpty
      (loadFile readFails ⟨"b.xlsx".toList⟩ (ReadEvent.load []) scenarioSession)).2.map
      (fun d => d.name)) = some "b_converted.xlsx".toList := by
  decide

/-! ## The displayed count -/

theorem handleExport_success (lib : ExcelJS)
    (writeBuffer : ExcelWorkbook → Except String Bytes) (s : Session)
    (workbook : Workbook) (res : ExcelWorkbook × Nat) (buffer : Bytes)
    (hs : s.workbook = some workbook) (hloop : exportLoop lib workbook = .ok res)
    (hw : writeBuffer res.1 = .ok buffer) :
    (handleExport lib writeBuffer s).1.workbook = some workbook ∧
    (handleExport lib writeBuffer s).1.cellsToConvert = 0 ∧
    (handleExport lib writeBuffer s).1.fileName = s.fileName := by
  simp [handleExport, hs, hloop, hw]

/-- The scenario workbook loaded from `a.csv` and then exported once. -/
theorem reachable_scenario_exported :
    Reachable readScenario excelJS writeEmpty (some Op.exported)
      (handleExport excelJS writeEmpty
        (loadFile readScenario ⟨"a.csv".toList⟩ (ReadEvent.load []) Session.initial)).1 := by
  have hload : Reachable readScenario excelJS writeEmpty (some Op.loaded)
      (loadFile readScenario ⟨"a.csv".toList⟩ (ReadEvent.load []) Session.initial) :=
    Reachable.loaded ⟨"a.csv".toList⟩ [] scenarioWorkbook Reachable.init (by decide) rfl
  exact Reachable.exported scenarioWorkbook _ [] hload
    (loadFile_success readScenario ⟨"a.csv".toList⟩ [] scenarioWorkbook Session.initial
      (by decide) rfl).1 scenario_exportLoop rfl

/-- C10 as stated fails: after the scenario workbook is loaded and exported
once, the stored count is 0 while `countCellsToConvert()` on the loaded
workbook is still 2. -/
theorem displayed_count_counterexample :
    ¬ (∀ (xlsxRead : Bytes → Except String Workbook) (lib : ExcelJS)
        (writeBuffer : ExcelWorkbook → Except String Bytes) (o : Option Op) (s : Session)
        (workbook : Workbook),
        Reachable xlsxRead lib writeBuffer o s → s.workbook = some workbook →
        s.cellsToConvert = countCellsToConvert workbook) := by
  intro h
  have hwb := (handleExport_success excelJS writeEmpty
    (loadFile readScenario ⟨"a.csv".toList⟩ (ReadEvent.load []) Session.initial)
    scenarioWorkbook _ []
    (loadFile_success readScenario ⟨"a.csv".toList⟩ [] scenarioWorkbook Session.initial
      (by decide) rfl).1 scenario_exportLoop rfl)
  have h2 := h readScenario excelJS writeEmpty _ _ scenarioWorkbook
    reachable_scenario_exported hwb.1
  rw [hwb.2.1] at h2
  exact absurd h2 (by decide)

/-- C10 as amended: in every session state reachable by successful loads and
successful exports a workbook is loaded once an operation has succeeded; the
stored count `cellsToConvert` equals `countCellsToConvert()` on the loaded
workbook when the last successful operation was a load, and it is 0 when the
last successful operation was an export. -/
theorem displayed_count_invariant (xlsxRead : Bytes → Except String Workbook) (lib : ExcelJS)
    (writeBuffer : ExcelWorkbook → Except String Bytes) (o : Option Op) (s : Session)
    (hreach : Reachable xlsxRead lib writeBuffer o s) :
    (o = none → s.workbook = none ∧ s.cellsToConvert = 0) ∧
    (o = some Op.loaded →
      ∃ workbook, s.workbook = some workbook ∧
        s.cellsToConvert = countCellsToConvert workbook) ∧
    (o = some Op.exported →
      ∃ workbook, s.workbook = some workbook ∧ s.cellsToConvert = 0) := by
  induction hreach with
  | init =>
      refine ⟨fun _ => ⟨rfl, rfl⟩, ?_, ?_⟩
      · intro h; cases h
      · intro h; cases h
  | loaded file data workbook _ hext hread _ =>
      obtain ⟨h1, h2, _⟩ := loadFile_success xlsxRead file data workbook _ hext hread
      refine ⟨?_, fun _ => ⟨workbook, h1, h2⟩, ?_⟩
      · intro h; cases h
      · intro h; cases h
  | exported workbook res buffer _ hs hloop hw _ =>
      obtain ⟨h1, h2, _⟩ := handleExport_success lib writeBuffer _ workbook res buffer hs hloop hw
      refine ⟨?_, ?_, fun _ => ⟨workbook, h1, h2⟩⟩
      · intro h; cases h
      · intro h; cases h

/-- C10 as amended, on the scenario: after the load the stored count is the
count of the workbook, 2; after the export it is 0. -/
theorem displayed_count_invariant_witness :
    Reachable readScenario excelJS writeEmpty (some Op.exported)
      (handleExport excelJS writeEmpty
        (loadFile readScenario ⟨"a.csv".toList⟩ (ReadEvent.load []) Session.initial)).1 ∧
    (∃ workbook,
      (handleExport excelJS writeEmpty
        (loadFile readScenario ⟨"a.csv".toList⟩ (ReadEvent.load [])
          Session.initial)).1.workbook = some workbook ∧
      (handleExport excelJS writeEmpty
        (loadFile readScenario ⟨"a.csv".toList⟩ (ReadEvent.load [])
          Session.initial)).1.cellsToConvert = 0) ∧
    (loadFile readScenario ⟨"a.csv".toList⟩ (ReadEvent.load [])
      Session.initial).cellsToConvert = 2 :=
  ⟨reachable_scenario_exported,
    (displayed_count_invariant readScenario excelJS writeEmpty (some Op.exported) _
      reachable_scenario_exported).2.2 rfl,
    by decide⟩

/-! ## The extension test of `loadFile` -/

theorem split_of_not_mem (w : JSString) (h : '.' ∉ w) : split '.' w = [w] := by
  induction w with
  | nil => rfl
  | cons c cs ih =>
      have hc : c ≠ '.' := fun e => h (by simp [e])
      have hcs : '.' ∉ cs := fun e => h (List.mem_cons_of_mem _ e)
      simp [split, hc, ih hcs]

theorem split_ne_nil (w : JSString) : split '.' w ≠ [] := by
  cases w with
  | nil => simp [split]
  | cons c cs =>
      by_cases hc : c = '.'
      · simp [split, hc]
      · cases hs : split '.' cs <;> simp [split, hc, hs]

theorem split_append_dot (pre rest : JSString) :
    ∃ l : List JSString, l ≠ [] ∧ split '.' (pre ++ '.' :: rest) = l ++ split '.' rest := by
  induction pre with
  | nil => exact ⟨[[]], by simp, by simp [split]⟩
  | cons c pre ih =>
      obtain ⟨l, hl, heq⟩ := ih
      cases l with
      | nil => exact absurd rfl hl
      | cons l0 l1 =>
          by_cases hc : c = '.'
          · exact ⟨[] :: l0 :: l1, by simp, by simp [split, hc, heq]⟩
          · exact ⟨(c :: l0) :: l1, by simp, by simp [split, hc, heq]⟩

theorem getLast_split_append_dot (pre rest : JSString) :
    (split '.' (pre ++ '.' :: rest)).getLast? = (split '.' rest).getLast? := by
  obtain ⟨l, _, heq⟩ := split_append_dot pre rest
  rw [heq, List.getLast?_append_of_ne_nil _ (split_ne_nil rest)]

/-- The last piece of `name.split('.')` is the whole name, or what follows its
last dot. -/
theorem lastSegment_form : ∀ (n : Nat) (name : JSString), name.length ≤ n →
    name = lastSegment name ∨ ∃ pre, name = pre ++ '.' :: lastSegment name := by
  intro n
  induction n with
  | zero =>
      intro name hlen
      have : name = [] := List.length_eq_zero.mp (by omega)
      subst this
      exact Or.inl rfl
  | succ n ih =>
      intro name hlen
      by_cases hdot : '.' ∈ name
      · obtain ⟨pre, rest, rfl⟩ := List.append_of_mem hdot
        have hlast : lastSegment (pre ++ '.' :: rest) = lastSegment rest := by
          unfold lastSegment
          rw [getLast_split_append_dot]
        have hrest : rest.length ≤ n := by
          simp only [List.length_append, List.length_cons] at hlen
          omega
        rw [hlast]
        rcases ih rest hrest with h | ⟨pre2, h⟩
        · exact Or.inr ⟨pre, by rw [← h]⟩
        · refine Or.inr ⟨pre ++ '.' :: pre2, ?_⟩
          have : pre ++ '.' :: rest = pre ++ '.' :: (pre2 ++ '.' :: lastSegment rest) := by
            rw [← h]
          simpa using this
      · left
        unfold lastSegment
        rw [split_of_not_mem name hdot]
        rfl

/-- Apart from the names that are themselves `xlsx`, `xls` or `csv` in some
letter case, `loadFile` rejects every file whose name does not end in `.xlsx`,
`.xls` or `.csv`. -/
theorem loadFileStart_rejects (file : File) (s : Session)
    (hend : ∀ ext ∈ validExtensions, ∀ pre, toLowerCase file.name ≠ pre ++ ext)
    (hbare : '.' :: toLowerCase file.name ∉ validExtensions) :
    (loadFileStart file s).2 = false ∧
    (loadFileStart file s).1.workbook = s.workbook ∧
    (loadFileStart file s).1.fileName = s.fileName ∧
    (loadFileStart file s).1.cellsToConvert = s.cellsToConvert := by
  have hrej : validExtensions.contains (fileExt file.name) = false := by
    cases hv : validExtensions.contains (fileExt file.name) with
    | false => rfl
    | true =>
        exfalso
        have hmem : fileExt file.name ∈ validExtensions := by simpa using hv
        rcases lastSegment_form _ file.name (Nat.le_refl _) with h | ⟨pre, h⟩
        · apply hbare
          rw [h]
          exact hmem
        · apply hend _ hmem (toLowerCase pre)
          have : toLowerCase file.name = toLowerCase (pre ++ '.' :: lastSegment file.name) := by
            rw [← h]
          rw [this]
          simp [toLowerCase, fileExt]
  obtain ⟨h1, h2, h3, h4, _⟩ := loadFileStart_rejected file s hrej
  exact ⟨h1, h2, h3, h4⟩

end ExcelHelper
